import Mathlib

/-!
Verification development for the bracket-tracking, delimiter-priority,
grammar-fallback parsing and AST-equivalence core of a Python code formatter.

The definitions below are shallow embeddings of the Python sources:
  * `src/src/black/brackets.py`  (bracket tracker and delimiter classifiers)
  * `src/src/black/parsing.py`   (grammar fallback parse, AST stringification)

Python dicts are embedded as insertion-ordered association lists, machine
integers as `Int`/`Nat`, raising code as `Except`.  Helper facts about the
Python collaborators that are not part of the sources (token kind numbers,
`black.nodes` token-class sets, built-in string methods) are modelled from the
specification and are marked as such in their doc comments.
-/

/-! ## Ordered-dict helpers (Python `dict` on association lists) -/

/-- Python dict lookup `m.get(k)` / `k in m`: first (and, for genuine dicts,
only) binding of `k`. -/
def dLookup {α β : Type} [DecidableEq α] : List (α × β) → α → Option β
  | [], _ => none
  | (k2, v) :: rest, k => if k2 = k then some v else dLookup rest k

/-- Python dict assignment `m[k] = v`: replaces the binding in place if the key
exists (insertion order is preserved), otherwise appends it. -/
def dInsert {α β : Type} [DecidableEq α] : List (α × β) → α → β → List (α × β)
  | [], k, v => [(k, v)]
  | (k2, v2) :: rest, k, v =>
    if k2 = k then (k, v) :: rest else (k2, v2) :: dInsert rest k v

/-- Python `m.pop(k, None)`: returns the removed value (if any) and the
remaining dict. -/
def dPop {α β : Type} [DecidableEq α] : List (α × β) → α → Option β × List (α × β)
  | [], _ => (none, [])
  | (k2, v) :: rest, k =>
    if k2 = k then (some v, rest)
    else
      match dPop rest k with
      | (r, m) => (r, (k2, v) :: m)

/-! ## Token kinds and grammar symbols

Modelled from the spec: the token kind enumeration comes from
`blib2to3.pgen2.token` and the grammar-rule tags from `blib2to3.pygram.syms`,
neither of which is under `src/`.  Only their distinctness matters to the
claims; the numbers follow the lib2to3 token module (tokens < 256, grammar
symbols >= 256). -/

def tNAME : Nat := 1
def tSTRING : Nat := 3
def tLPAR : Nat := 7
def tRPAR : Nat := 8
def tLSQB : Nat := 9
def tRSQB : Nat := 10
def tCOLON : Nat := 11
def tCOMMA : Nat := 12
def tPLUS : Nat := 14
def tMINUS : Nat := 15
def tSTAR : Nat := 16
def tSLASH : Nat := 17
def tVBAR : Nat := 18
def tAMPER : Nat := 19
def tLESS : Nat := 20
def tGREATER : Nat := 21
def tDOT : Nat := 23
def tPERCENT : Nat := 24
def tLBRACE : Nat := 26
def tRBRACE : Nat := 27
def tEQEQUAL : Nat := 28
def tNOTEQUAL : Nat := 29
def tLESSEQUAL : Nat := 30
def tGREATEREQUAL : Nat := 31
def tTILDE : Nat := 32
def tCIRCUMFLEX : Nat := 33
def tLEFTSHIFT : Nat := 34
def tRIGHTSHIFT : Nat := 35
def tDOUBLESTAR : Nat := 36
def tDOUBLESLASH : Nat := 47
def tAT : Nat := 49
def tCOMMENT : Nat := 53
def tASYNC : Nat := 57

def symCompFor : Nat := 256
def symOldCompFor : Nat := 257
def symCompIf : Nat := 258
def symOldCompIf : Nat := 259
def symTest : Nat := 260
def symCompOp : Nat := 261
def symComparison : Nat := 262
def symFactor : Nat := 263
def symStarExpr : Nat := 264
def symImportFrom : Nat := 265
def symDottedName : Nat := 266
def symAtom : Nat := 267
def symFileInput : Nat := 268
def symExpr : Nat := 269
def symTrailer : Nat := 270

/-! ## Token-class sets (from `black.nodes`, modelled from the spec) -/

/-- Modelled from the spec: `black.nodes.CLOSING_BRACKETS` (module not under
`src/`): the closing bracket token kinds `)`, `]`, `}`. -/
def CLOSING_BRACKETS : List Nat := [tRPAR, tRSQB, tRBRACE]

/-- Modelled from the spec: `black.nodes.OPENING_BRACKETS`: `(`, `[`, `{`. -/
def OPENING_BRACKETS : List Nat := [tLPAR, tLSQB, tLBRACE]

/-- Modelled from the spec: `black.nodes.BRACKET` maps each opening bracket
kind to its matching closing kind. -/
def BRACKET_CLOSE (t : Nat) : Nat :=
  if t = tLPAR then tRPAR else if t = tLSQB then tRSQB else tRBRACE

/-- Modelled from the spec: `black.nodes.COMPARATORS`: the comparison operator
token kinds `<`, `>`, `==`, `!=`/`<>`, `<=`, `>=`. -/
def COMPARATORS : List Nat :=
  [tLESS, tGREATER, tEQEQUAL, tNOTEQUAL, tLESSEQUAL, tGREATEREQUAL]

/-- Modelled from the spec: `black.nodes.MATH_OPERATORS`: the binary/unary math
operator token kinds (the keys of `MATH_PRIORITIES`). -/
def MATH_OPERATORS : List Nat :=
  [tVBAR, tCIRCUMFLEX, tAMPER, tLEFTSHIFT, tRIGHTSHIFT, tPLUS, tMINUS,
   tSTAR, tSLASH, tDOUBLESLASH, tPERCENT, tAT, tTILDE, tDOUBLESTAR]

/-- Modelled from the spec: `black.nodes.LOGIC_OPERATORS`: `and`, `or`. -/
def LOGIC_OPERATORS : List String := ["and", "or"]

/-! ## Priority constants (src/src/black/brackets.py lines 30-52) -/

def COMPREHENSION_PRIORITY : Nat := 20
def COMMA_PRIORITY : Nat := 18
def TERNARY_PRIORITY : Nat := 16
def LOGIC_PRIORITY : Nat := 14
def STRING_PRIORITY : Nat := 12
def COMPARATOR_PRIORITY : Nat := 10

/-- Embedding of `MATH_PRIORITIES` (src/src/black/brackets.py lines 36-51):
the tiered priorities of the binary math operators. -/
def MATH_PRIORITIES : List (Nat × Nat) :=
  [(tVBAR, 9), (tCIRCUMFLEX, 8), (tAMPER, 7), (tLEFTSHIFT, 6),
   (tRIGHTSHIFT, 6), (tPLUS, 5), (tMINUS, 5), (tSTAR, 4), (tSLASH, 4),
   (tDOUBLESLASH, 4), (tPERCENT, 4), (tAT, 4), (tTILDE, 3), (tDOUBLESTAR, 2)]

def DOT_PRIORITY : Nat := 1

/-! ## Leaves -/

/-- The shape of `leaf.prev_sibling`: absent, a composite `Node`, or a `Leaf`
with its literal text. -/
inductive Sib where
  | node : Sib
  | leaf (value : String) : Sib
deriving DecidableEq, Repr

/-- Embedding of `blib2to3.pytree.Leaf` as consumed by the bracket tracker:
token kind, literal text, the grammar-rule tag of the parent node (if any), the
previous sibling's shape, and the `is_vararg` context flag (see `is_vararg`).
`lid` models the CPython object identity `id(leaf)` used as the key of the
`delimiters` dict. -/
structure Leaf where
  lid : Nat := 0
  type : Nat
  value : String := ""
  parentType : Option Nat := none
  prevSibling : Option Sib := none
  varargCtx : Bool := false
deriving DecidableEq, Repr

/-- Modelled from the spec: `black.nodes.is_vararg` (module not under `src/`).
Spec section 4.1: "A leaf that is a `*`/`**` unpacking marker inside
argument-list or unpacking contexts never splits"; the parent-chain context
test is abstracted as the leaf's `varargCtx` flag. -/
def is_vararg (leaf : Leaf) : Bool :=
  (leaf.type == tSTAR || leaf.type == tDOUBLESTAR) && leaf.varargCtx

/-- `leaf.parent and leaf.parent.type in ts` (falsy parent gives `false`). -/
def parentIn (leaf : Leaf) (ts : List Nat) : Bool :=
  match leaf.parentType with
  | some p => ts.contains p
  | none => false

/-- `leaf.parent and leaf.parent.type not in ts` (falsy parent gives `false`). -/
def parentNotIn (leaf : Leaf) (ts : List Nat) : Bool :=
  match leaf.parentType with
  | some p => !(ts.contains p)
  | none => false

/-- `previous is None or previous.type in CLOSING_BRACKETS`. -/
def prevNoneOrClosing (previous : Option Leaf) : Bool :=
  match previous with
  | none => true
  | some p => CLOSING_BRACKETS.contains p.type

/-- `previous and previous.type == token.STRING`. -/
def prevIsString (previous : Option Leaf) : Bool :=
  match previous with
  | none => false
  | some p => p.type == tSTRING

/-- `previous and previous.type == token.NAME and previous.value == v`. -/
def prevIsNameValue (previous : Option Leaf) (v : String) : Bool :=
  match previous with
  | none => false
  | some p => p.type == tNAME && p.value == v

/-- `isinstance(leaf.prev_sibling, Leaf) and leaf.prev_sibling.value == "async"`. -/
def prevSibIsAsyncLeaf (leaf : Leaf) : Bool :=
  match leaf.prevSibling with
  | some (.leaf v) => v == "async"
  | _ => false

/-- Embedding of `is_split_after_delimiter` (src/src/black/brackets.py lines
199-203): the priority of `leaf` given a line break after it.  The source
returns the literal `5` for a comma (its comment says "Use a constant value for
COMMA_PRIORITY" but `COMMA_PRIORITY` is 18). -/
def is_split_after_delimiter (leaf : Leaf) : Nat :=
  if leaf.type == tCOMMA then 5 else 0

/-- Embedding of `is_split_before_delimiter` (src/src/black/brackets.py lines
206-259): the priority of `leaf` given a line break before it, with each
branch and its returned literal taken verbatim from the source. -/
def is_split_before_delimiter (leaf : Leaf) (previous : Option Leaf) : Nat :=
  if is_vararg leaf then 0
  else if leaf.type == tDOT && parentNotIn leaf [symImportFrom, symDottedName]
      && prevNoneOrClosing previous then 5
  else if MATH_OPERATORS.contains leaf.type
      && parentNotIn leaf [symFactor, symStarExpr] then
    (if leaf.type == tPLUS || leaf.type == tMINUS || leaf.type == tSTAR
     then 1 else 0)
  else if COMPARATORS.contains leaf.type then 4
  else if leaf.type == tSTRING && prevIsString previous then 3
  else if !(leaf.type == tNAME || leaf.type == tASYNC) then 0
  else if ((leaf.value == "for" && parentIn leaf [symCompFor, symOldCompFor])
            || leaf.type == tASYNC)
      && !(prevSibIsAsyncLeaf leaf) then 2
  else if leaf.value == "if" && parentIn leaf [symCompIf, symOldCompIf] then 2
  else if (leaf.value == "if" || leaf.value == "else")
      && parentIn leaf [symTest] then 1
  else if leaf.value == "is" then 4
  else if leaf.value == "in" && parentIn leaf [symCompOp, symComparison]
      && !(prevIsNameValue previous "not") then 4
  else if leaf.value == "not" && parentIn leaf [symCompOp]
      && !(prevIsNameValue previous "is") then 4
  else if LOGIC_OPERATORS.contains leaf.value && leaf.parentType.isSome then 2
  else 0

/-! ## The bracket tracker (src/src/black/brackets.py lines 59-196) -/

/-- The annotations `mark` writes onto the processed leaf
(`leaf.bracket_depth`, `leaf.opening_bracket`). -/
structure Annots where
  bracket_depth : Int
  opening_bracket : Option Leaf
deriving DecidableEq, Repr

/-- Embedding of the `BracketTracker` state.  The two pseudo-depth stacks are
`Option`s: `none` models the attribute never having been created on the
instance (the hand-written `__init__` at src lines 191-196 does not initialize
them, so Python raises `AttributeError` on first access). -/
structure BracketTracker where
  depth : Int
  bracket_match : List ((Int × Nat) × Leaf)
  delimiters : List (Nat × Nat)
  previous : Option Leaf
  for_loop_depths : Option (List Int)
  lambda_argument_depths : Option (List Int)
  invisible : List Leaf
deriving DecidableEq, Repr

/-- Embedding of `BracketTracker.__init__` (src/src/black/brackets.py lines
191-196): it sets `depth`, `bracket_match`, `delimiters`, `previous` and
`invisible`, but never creates `_for_loop_depths` or
`_lambda_argument_depths`. -/
def initTracker : BracketTracker :=
  { depth := 0, bracket_match := [], delimiters := [], previous := none,
    for_loop_depths := none, lambda_argument_depths := none, invisible := [] }

/-- Python exceptions other than `BracketMatchError` that the tracker methods
can raise. -/
inductive PyExc where
  | attributeError : PyExc
deriving DecidableEq, Repr

/-- `self.invisible.append(leaf)` guarded by `if not leaf.value`. -/
def updateInvisible (inv : List Leaf) (leaf : Leaf) : List Leaf :=
  if leaf.value == "" then inv ++ [leaf] else inv

/-- The split-after half of `mark`'s delimiter recording (src lines 94-97). -/
def recordAfter (st : BracketTracker) (leaf : Leaf) : BracketTracker :=
  if is_split_after_delimiter leaf ≠ 0 then
    { st with delimiters :=
        dInsert st.delimiters leaf.lid (is_split_after_delimiter leaf) }
  else st

/-- The delimiter recording step of `mark` (src lines 90-97): only at depth 0;
a nonzero split-before priority is attributed to the previous leaf when one
exists, otherwise the split-after priority is attributed to the leaf itself. -/
def recordDelims (st : BracketTracker) (leaf : Leaf) : BracketTracker :=
  if st.depth = 0 then
    match st.previous with
    | some p =>
      if is_split_before_delimiter leaf st.previous ≠ 0 then
        { st with delimiters := dInsert st.delimiters p.lid (is_split_before_delimiter leaf st.previous) }
      else recordAfter st leaf
    | none => recordAfter st leaf
  else st

/-- The opening-bracket step of `mark` (src lines 98-102). -/
def doOpening (st : BracketTracker) (leaf : Leaf) : BracketTracker :=
  if OPENING_BRACKETS.contains leaf.type then
    { st with
      bracket_match :=
        dInsert st.bracket_match (st.depth, BRACKET_CLOSE leaf.type) leaf,
      depth := st.depth + 1,
      invisible := updateInvisible st.invisible leaf }
  else st

/-- Embedding of `BracketTracker.mark` (src/src/black/brackets.py lines
71-103).  The error value is the offending leaf carried by
`BracketMatchError`; on success the new state is returned together with the
annotations written onto the leaf (`none` when the leaf was skipped). -/
def mark (st : BracketTracker) (leaf : Leaf) :
    Except Leaf (BracketTracker × Option Annots) :=
  if leaf.type = tCOMMENT then .ok (st, none)
  else if st.depth = 0 ∧ CLOSING_BRACKETS.contains leaf.type ∧
      dLookup st.bracket_match (st.depth, leaf.type) = none then
    .ok (st, none)
  else if CLOSING_BRACKETS.contains leaf.type then
    match dPop st.bracket_match (st.depth - 1, leaf.type) with
    | (none, _) => .error leaf
    | (some ob, m2) =>
      let st1 : BracketTracker :=
        { st with depth := st.depth - 1, bracket_match := m2,
                  invisible := updateInvisible st.invisible leaf }
      let st3 := doOpening (recordDelims st1 leaf) leaf
      .ok ({ st3 with previous := some leaf },
           some { bracket_depth := st1.depth, opening_bracket := some ob })
  else
    let st3 := doOpening (recordDelims st leaf) leaf
    .ok ({ st3 with previous := some leaf },
         some { bracket_depth := st.depth, opening_bracket := none })

/-- Marking a whole sequence of leaves, stopping at the first
`BracketMatchError`. -/
def markAll (st : BracketTracker) : List Leaf → Except Leaf BracketTracker
  | [] => .ok st
  | l :: ls =>
    match mark st l with
    | .error e => .error e
    | .ok (st2, _) => markAll st2 ls

/-- The depth the tracker's `depth` field holds at the delimiter-recording
point of `mark` (after the closing-bracket decrement, before the
opening-bracket increment). -/
def recordDepth (st : BracketTracker) (leaf : Leaf) : Int :=
  if CLOSING_BRACKETS.contains leaf.type then st.depth - 1 else st.depth

/-- Embedding of `BracketTracker.maybe_increment_for_loop_variable` (src lines
135-146).  `self.depth += 1` happens before the append onto
`self._for_loop_depths`; accessing that never-initialized attribute raises
`AttributeError`. -/
def maybe_increment_for_loop_variable (st : BracketTracker) (leaf : Leaf) :
    Except PyExc (BracketTracker × Bool) :=
  if leaf.type = tNAME ∧ leaf.value = "for" then
    let s1 : BracketTracker := { st with depth := st.depth + 1 }
    match s1.for_loop_depths with
    | none => .error .attributeError
    | some ds =>
      .ok ({ s1 with for_loop_depths := some (ds ++ [s1.depth]) }, true)
  else .ok (st, false)

/-- Embedding of `BracketTracker.maybe_decrement_after_for_loop_variable`
(src lines 148-160); the truthiness test on `self._for_loop_depths` raises
`AttributeError` when the attribute was never created. -/
def maybe_decrement_after_for_loop_variable (st : BracketTracker)
    (leaf : Leaf) : Except PyExc (BracketTracker × Bool) :=
  match st.for_loop_depths with
  | none => .error .attributeError
  | some ds =>
    if ds ≠ [] ∧ ds.getLast? = some st.depth ∧ leaf.type = tNAME ∧
        leaf.value = "in" then
      .ok ({ st with depth := st.depth - 1,
                     for_loop_depths := some ds.dropLast }, true)
    else .ok (st, false)

/-- Embedding of `BracketTracker.maybe_increment_lambda_arguments` (src lines
162-173). -/
def maybe_increment_lambda_arguments (st : BracketTracker) (leaf : Leaf) :
    Except PyExc (BracketTracker × Bool) :=
  if leaf.type = tNAME ∧ leaf.value = "lambda" then
    let s1 : BracketTracker := { st with depth := st.depth + 1 }
    match s1.lambda_argument_depths with
    | none => .error .attributeError
    | some ds =>
      .ok ({ s1 with lambda_argument_depths := some (ds ++ [s1.depth]) }, true)
  else .ok (st, false)

/-- Embedding of `BracketTracker.maybe_decrement_after_lambda_arguments`
(src lines 175-186). -/
def maybe_decrement_after_lambda_arguments (st : BracketTracker)
    (leaf : Leaf) : Except PyExc (BracketTracker × Bool) :=
  match st.lambda_argument_depths with
  | none => .error .attributeError
  | some ds =>
    if ds ≠ [] ∧ ds.getLast? = some st.depth ∧ leaf.type = tCOLON then
      .ok ({ st with depth := st.depth - 1,
                     lambda_argument_depths := some ds.dropLast }, true)
    else .ok (st, false)

/-- Embedding of `BracketTracker.max_delimiter_priority` (src lines 116-122):
`max(v for k, v in self.delimiters.items() if k not in exclude)`; Python's
`max` raises `ValueError` on an empty generator. -/
def max_delimiter_priority (st : BracketTracker) (exclude : List Nat) :
    Except Unit Nat :=
  match (st.delimiters.filter (fun kv => !(exclude.contains kv.1))).map
      (fun kv => kv.2) with
  | [] => .error ()
  | v :: vs => .ok (vs.foldl max v)

/-- Embedding of `BracketTracker.delimiter_count_with_priority` (src lines
124-133): returns 0 on an empty delimiter map; `priority or
self.max_delimiter_priority()` treats the default argument 0 as "use the
line's maximum". -/
def delimiter_count_with_priority (st : BracketTracker) (priority : Nat) :
    Except Unit Nat :=
  if st.delimiters.isEmpty then .ok 0
  else
    match (if priority = 0 then max_delimiter_priority st [] else .ok priority) with
    | .error e => .error e
    | .ok p => .ok ((st.delimiters.filter (fun kv => kv.2 = p)).length)

/-! ## Grammar-fallback parsing (src/src/black/parsing.py lines 51-98) -/

/-- Modelled from the spec: Python `str.endswith` (built-in, not under
`src/`): suffix test on the character sequence. -/
def pyEndswith (s suffix : String) : Bool :=
  suffix.data.isSuffixOf s.data

/-- Embedding of the source-text newline normalization at the top of
`lib2to3_parse` (src/src/black/parsing.py lines 55-56):
`if not src_txt.endswith("\n"): src_txt += "\n"`. -/
def lib2to3NewlineFix (src : String) : String :=
  if !(pyEndswith src "\n") then src ++ "\n" else src

/-- A grammar candidate; only its numeric `version` identifier is consulted by
the fallback logic. -/
structure Grammar where
  version : Nat
deriving DecidableEq, Repr

/-- The concrete syntax tree returned by the driver: a bare `Leaf` or a
composite `Node`. -/
inductive PTree where
  | leaf (t : Nat) (v : String) : PTree
  | node (typ : Nat) (children : List PTree) : PTree
deriving Repr

/-- Embedding of the leaf-wrapping step at the end of `lib2to3_parse`
(src lines 96-97): a bare leaf result is wrapped in a synthetic `file_input`
node. -/
def wrapResult (r : PTree) : PTree :=
  match r with
  | .leaf t v => .node symFileInput [.leaf t v]
  | .node t c => .node t c

/-- Embedding of the `for grammar in grammars: ... break / except ... else:
raise` loop of `lib2to3_parse` (src lines 65-94).  `outcome` abstracts
`driver.Driver(grammar).parse_string` (the driver is an external collaborator);
an error is the `InvalidInput` message built from the `ParseError`/`TokenError`.
On all-fail the error stored for `max(errors)` is raised; `.error none` models
the `assert len(errors) >= 1` firing on an empty candidate list. -/
def lib2to3Loop (outcome : Grammar → Except String PTree) :
    List Grammar → List (Nat × String) → Except (Option String) PTree
  | [], errors =>
    match dLookup errors (((errors.map (fun kv => kv.1)).foldl max 0)) with
    | some e => .error (some e)
    | none => .error none
  | g :: gs, errors =>
    match outcome g with
    | .ok r => .ok r
    | .error e => lib2to3Loop outcome gs (dInsert errors g.version e)

/-- Embedding of `lib2to3_parse` (src/src/black/parsing.py lines 51-98),
abstracted over the driver outcome per grammar. -/
def lib2to3_parse (outcome : Grammar → Except String PTree)
    (grammars : List Grammar) : Except (Option String) PTree :=
  (lib2to3Loop outcome grammars []).map wrapResult

/-! ## Docstring normalization (src/src/black/parsing.py lines 150-157) -/

/-- Modelled from the spec: Python `str.isspace` whitespace characters as used
by `str.strip()` (built-in, not under `src/`). -/
def isPySpace (c : Char) : Bool :=
  c = ' ' || c = '\t' || c = '\n' || c = '\r' ||
  c = Char.ofNat 11 || c = Char.ofNat 12

/-- Modelled from the spec: Python `str.strip()` (built-in): removes leading
and trailing whitespace. -/
def pyStrip (s : String) : String :=
  String.mk (((s.data.dropWhile isPySpace).reverse.dropWhile isPySpace).reverse)

/-- Modelled from the spec: Python `str.rstrip()` (built-in): removes trailing
whitespace. -/
def pyRstrip (s : String) : String :=
  String.mk ((s.data.reverse.dropWhile isPySpace).reverse)

/-- Modelled from the spec: Python `str.splitlines()` (built-in): split at line
terminators (`\n`, `\r`, `\r\n` in this model), the terminators removed, no
empty trailing piece for a trailing terminator. -/
def pySplitlinesAux : List Char → List Char → List String
  | [], acc => if acc.isEmpty then [] else [String.mk acc.reverse]
  | '\r' :: '\n' :: rest, acc => String.mk acc.reverse :: pySplitlinesAux rest []
  | '\r' :: rest, acc => String.mk acc.reverse :: pySplitlinesAux rest []
  | '\n' :: rest, acc => String.mk acc.reverse :: pySplitlinesAux rest []
  | c :: rest, acc => pySplitlinesAux rest (c :: acc)

def pySplitlines (s : String) : List String :=
  pySplitlinesAux s.data []

/-- Embedding of `_normalize` (src/src/black/parsing.py lines 150-157): strip
each line, rejoin with `lineend`, strip the result. -/
def pyNormalize (lineend value : String) : String :=
  pyStrip (String.intercalate lineend ((pySplitlines value).map pyStrip))

/-! ## AST values and `_stringify_ast` (src/src/black/parsing.py lines 160-243) -/

/-- Embedding of the `ast.AST` value universe traversed by `_stringify_ast`:
AST nodes (class name plus `_fields` as an association list, kept in the
`sorted(node._fields)` order the emission loop iterates), list-valued fields,
and the leaf field values relevant here (`str`, `int`, `None`). -/
inductive PyVal where
  | node (name : String) (fields : List (String × PyVal)) : PyVal
  | vlist (items : List PyVal) : PyVal
  | vstr (s : String) : PyVal
  | vint (n : Int) : PyVal
  | vnone : PyVal
deriving Repr

/-- The `u`-kind test of `_stringify_ast` (src lines 174-178):
`isinstance(node, ast.Constant) and isinstance(node.value, str) and
node.kind == "u"` (the class-name test is done by the caller; a `Constant`
always has both attributes, so a failed lookup is modelled as `False`). -/
def isStrU (fields : List (String × PyVal)) : Bool :=
  (match dLookup fields "value" with
   | some (.vstr _) => true
   | _ => false) &&
  (match dLookup fields "kind" with
   | some (.vstr k) => k == "u"
   | _ => false)

def squote : Char := Char.ofNat 39

/-- Modelled from the spec: the escape map of Python `repr` on strings
(built-in, not under `src/`); the model always single-quotes and escapes the
backslash, the quote and the common control characters, which keeps the map
injective like CPython's. -/
def pyEscapeChar (c : Char) : List Char :=
  if c = '\\' then ['\\', '\\']
  else if c = squote then ['\\', squote]
  else if c = '\n' then ['\\', 'n']
  else if c = '\r' then ['\\', 'r']
  else if c = '\t' then ['\\', 't']
  else [c]

def pyEscape : List Char → List Char
  | [] => []
  | c :: rest => pyEscapeChar c ++ pyEscape rest

/-- Modelled from the spec: Python `repr` of a string. -/
def pyReprStr (s : String) : String :=
  String.mk (squote :: pyEscape s.data ++ [squote])

/-- Modelled from the spec: Python `repr` of the leaf field values. -/
def pyReprVal : PyVal → String
  | .vstr s => pyReprStr s
  | .vint n => toString n
  | .vnone => "None"
  | _ => ""

/-- `value.__class__.__name__`. -/
def pyClassName : PyVal → String
  | .vstr _ => "str"
  | .vint _ => "int"
  | .vnone => "NoneType"
  | .vlist _ => "list"
  | .node n _ => n

/-- `'    ' * n`. -/
def pyIndent (n : Nat) : String :=
  String.mk (List.replicate (4 * n) ' ')

def isVstr : PyVal → Bool
  | .vstr _ => true
  | _ => false

/-- `isinstance(parent_stack[-1], ast.Expr)`. -/
def lastIsExpr (stack : List PyVal) : Bool :=
  match stack.getLast? with
  | some (.node n _) => n == "Expr"
  | _ => false

/-- The docstring-position test of `_stringify_ast` (src lines 220-228). -/
def isDocstringPos (name fname : String) (v : PyVal) (stack : List PyVal) :
    Bool :=
  name == "Constant" && fname == "value" && isVstr v &&
  decide (2 ≤ stack.length) && lastIsExpr stack

/-- The in-place attribute assignment `node.kind = None` (src line 182): the
first `kind` binding is replaced, everything else left alone. -/
def setKindNone : List (String × PyVal) → List (String × PyVal)
  | [] => []
  | (k, v) :: rest =>
    if k = "kind" then (k, PyVal.vnone) :: rest else (k, v) :: setKindNone rest

theorem one_le_sizeOf_pyVal (v : PyVal) : 1 ≤ sizeOf v := by
  cases v <;> simp <;> omega

theorem sizeOf_setKindNone (fs : List (String × PyVal)) :
    sizeOf (setKindNone fs) ≤ sizeOf fs := by
  induction fs with
  | nil => simp [setKindNone]
  | cons hd tl ih =>
    obtain ⟨k, v⟩ := hd
    by_cases hk : k = "kind" <;>
      simp [setKindNone, hk] <;>
      have := one_le_sizeOf_pyVal v <;> omega

/-- The leaf-value emission line of `_stringify_ast` (src lines 218-241),
for a field value that is neither a list nor an AST node. -/
def valueLine (name : String) (stack : List PyVal) (fname : String)
    (v : PyVal) : String :=
  let normalized : PyVal :=
    if isDocstringPos name fname v stack then
      match v with
      | .vstr s => .vstr (pyNormalize "\n" s)
      | w => w
    else if fname == "type_comment" && isVstr v then
      match v with
      | .vstr s => .vstr (pyRstrip s)
      | w => w
    else v
  pyIndent (stack.length + 1) ++ pyReprVal normalized ++ ",  # " ++
    pyClassName v

mutual

/-- Embedding of `_stringify_ast` (src/src/black/parsing.py lines 173-243).
The generator's output is the first component; the second component is the
node as it stands after the traversal has been consumed (CPython mutates the
nodes in place; the pure embedding returns the mutated tree).  Non-node
values never reach `_stringify_ast` from the guarded call sites (CPython
would raise on them); they are returned inert. -/
def stringifyVal : PyVal → List PyVal → List String × PyVal
  | .node name fields, stack =>
    let fields1 :=
      if name == "Constant" && isStrU fields then setKindNone fields
      else fields
    let self := PyVal.node name fields1
    let (body, fields2) :=
      if name == "TypeIgnore" then ([], fields1)
      else stringifyFields name self stack fields1
    ((pyIndent stack.length ++ name ++ "(") ::
       body ++ [pyIndent stack.length ++ ")  # /" ++ name],
     .node name fields2)
  | v, _ => ([], v)
termination_by v _ => sizeOf v
decreasing_by
  all_goals simp_wf
  all_goals try split
  all_goals try simp
  all_goals first
    | (have hsz := sizeOf_setKindNone fields; omega)
    | (have hsz := sizeOf_setKindNone fs; omega)
    | omega

/-- The field loop of `_stringify_ast` (src lines 186-241): one `field=`
header per field, then the field's own lines; list fields recurse into their
AST items, AST fields recurse with the node pushed onto the ancestor stack,
and leaf values produce one `repr` line. -/
def stringifyFields (name : String) (self : PyVal) (stack : List PyVal) :
    List (String × PyVal) → List String × List (String × PyVal)
  | [] => ([], [])
  | (fname, v) :: rest =>
    let hdr := pyIndent (stack.length + 1) ++ fname ++ "="
    let (lns, v2) :=
      match v with
      | .vlist items =>
        let (l, items2) := stringifyItems name self stack fname items
        (l, PyVal.vlist items2)
      | .node n2 f2 => stringifyVal (PyVal.node n2 f2) (stack ++ [self])
      | w => ([valueLine name stack fname w], w)
    let (lns2, rest2) := stringifyFields name self stack rest
    (hdr :: lns ++ lns2, (fname, v2) :: rest2)
termination_by fs => sizeOf fs
decreasing_by
  all_goals simp_wf
  all_goals try split
  all_goals try simp
  all_goals first
    | (have hsz := sizeOf_setKindNone fields; omega)
    | (have hsz := sizeOf_setKindNone fs; omega)
    | omega

/-- The list-item loop of `_stringify_ast` (src lines 198-213): a tuple item
of a `Delete` node's `targets` field is flattened into its `elts`; other AST
items recurse; non-AST items are skipped. -/
def stringifyItems (name : String) (self : PyVal) (stack : List PyVal)
    (fname : String) : List PyVal → List String × List PyVal
  | [] => ([], [])
  | item :: rest =>
    let (lns, item2) :=
      match item with
      | .node n fs =>
        if fname == "targets" && name == "Delete" && n == "Tuple" then
          let (l, fs2) := stringifyTupleFields self stack fs
          (l, PyVal.node n fs2)
        else stringifyVal (PyVal.node n fs) (stack ++ [self])
      | w => ([], w)
    let (lns2, rest2) := stringifyItems name self stack fname rest
    (lns ++ lns2, item2 :: rest2)
termination_by items => sizeOf items
decreasing_by
  all_goals simp_wf
  all_goals try split
  all_goals try simp
  all_goals first
    | (have hsz := sizeOf_setKindNone fields; omega)
    | (have hsz := sizeOf_setKindNone fs; omega)
    | omega

/-- The `for elt in item.elts` flattening (src lines 207-210) applied to the
tuple's field list: only the first `elts` binding is consulted (`item.elts`);
the elements are traversed with the `Delete` node as the pushed parent.  On
real ASTs `elts` is always a list of nodes; other shapes are left inert
(CPython would raise there). -/
def stringifyTupleFields (self : PyVal) (stack : List PyVal) :
    List (String × PyVal) → List String × List (String × PyVal)
  | [] => ([], [])
  | ("elts", .vlist items) :: rest =>
    let (lns, items2) := stringifyElts self stack items
    (lns, ("elts", PyVal.vlist items2) :: rest)
  | ("elts", v) :: rest => ([], ("elts", v) :: rest)
  | e :: rest =>
    let (lns, rest2) := stringifyTupleFields self stack rest
    (lns, e :: rest2)
termination_by fs => sizeOf fs
decreasing_by
  all_goals simp_wf
  all_goals try split
  all_goals try simp
  all_goals first
    | (have hsz := sizeOf_setKindNone fields; omega)
    | (have hsz := sizeOf_setKindNone fs; omega)
    | omega

def stringifyElts (self : PyVal) (stack : List PyVal) :
    List PyVal → List String × List PyVal
  | [] => ([], [])
  | item :: rest =>
    let (lns, item2) :=
      match item with
      | .node n fs => stringifyVal (PyVal.node n fs) (stack ++ [self])
      | w => ([], w)
    let (lns2, rest2) := stringifyElts self stack rest
    (lns ++ lns2, item2 :: rest2)
termination_by items => sizeOf items
decreasing_by
  all_goals simp_wf
  all_goals try split
  all_goals try simp
  all_goals first
    | (have hsz := sizeOf_setKindNone fields; omega)
    | (have hsz := sizeOf_setKindNone fs; omega)
    | omega

end

/-- `stringify_ast` (src lines 160-162): traversal from the root with an
empty ancestor stack. -/
def stringify_ast (v : PyVal) : List String × PyVal :=
  stringifyVal v []

mutual

/-- The net in-place effect of consuming `_stringify_ast`'s output on the
tree: every string `Constant` with `kind == "u"` that the traversal reaches
gets its `kind` cleared to `None`; nothing else changes.  This mirrors the
traversal exactly (in particular `TypeIgnore` fields and the non-AST items
the traversal skips are untouched). -/
def clearU : PyVal → PyVal
  | .node name fields =>
    let fields1 :=
      if name == "Constant" && isStrU fields then setKindNone fields
      else fields
    if name == "TypeIgnore" then .node name fields1
    else .node name (clearUFields name fields1)
  | v => v
termination_by v => sizeOf v
decreasing_by
  all_goals simp_wf
  all_goals try split
  all_goals try simp
  all_goals first
    | (have hsz := sizeOf_setKindNone fields; omega)
    | (have hsz := sizeOf_setKindNone fs; omega)
    | omega

def clearUFields (name : String) :
    List (String × PyVal) → List (String × PyVal)
  | [] => []
  | (fname, v) :: rest =>
    let v2 :=
      match v with
      | .vlist items => PyVal.vlist (clearUItems name fname items)
      | .node n2 f2 => clearU (PyVal.node n2 f2)
      | w => w
    (fname, v2) :: clearUFields name rest
termination_by fs => sizeOf fs
decreasing_by
  all_goals simp_wf
  all_goals try split
  all_goals try simp
  all_goals first
    | (have hsz := sizeOf_setKindNone fields; omega)
    | (have hsz := sizeOf_setKindNone fs; omega)
    | omega

def clearUItems (name fname : String) : List PyVal → List PyVal
  | [] => []
  | item :: rest =>
    let item2 :=
      match item with
      | .node n fs =>
        if fname == "targets" && name == "Delete" && n == "Tuple" then
          PyVal.node n (clearUTupleFields fs)
        else clearU (PyVal.node n fs)
      | w => w
    item2 :: clearUItems name fname rest
termination_by items => sizeOf items
decreasing_by
  all_goals simp_wf
  all_goals try split
  all_goals try simp
  all_goals first
    | (have hsz := sizeOf_setKindNone fields; omega)
    | (have hsz := sizeOf_setKindNone fs; omega)
    | omega

def clearUTupleFields : List (String × PyVal) → List (String × PyVal)
  | [] => []
  | ("elts", .vlist items) :: rest =>
    ("elts", PyVal.vlist (clearUElts items)) :: rest
  | ("elts", v) :: rest => ("elts", v) :: rest
  | e :: rest => e :: clearUTupleFields rest
termination_by fs => sizeOf fs
decreasing_by
  all_goals simp_wf
  all_goals try split
  all_goals try simp
  all_goals first
    | (have hsz := sizeOf_setKindNone fields; omega)
    | (have hsz := sizeOf_setKindNone fs; omega)
    | omega

def clearUElts : List PyVal → List PyVal
  | [] => []
  | item :: rest =>
    (match item with
     | .node n fs => clearU (PyVal.node n fs)
     | w => w) :: clearUElts rest
termination_by items => sizeOf items
decreasing_by
  all_goals simp_wf
  all_goals try split
  all_goals try simp
  all_goals first
    | (have hsz := sizeOf_setKindNone fields; omega)
    | (have hsz := sizeOf_setKindNone fs; omega)
    | omega

end

mutual

/-- Whether the tree contains any string `Constant` whose `kind` is the
legacy unicode marker `"u"` (anywhere, visited by the traversal or not). -/
def hasUKind : PyVal → Bool
  | .node name fields =>
    (name == "Constant" && isStrU fields) || hasUKindFields fields
  | .vlist items => hasUKindItems items
  | _ => false
termination_by v => sizeOf v

def hasUKindFields : List (String × PyVal) → Bool
  | [] => false
  | (_, v) :: rest => hasUKind v || hasUKindFields rest
termination_by fs => sizeOf fs

def hasUKindItems : List PyVal → Bool
  | [] => false
  | item :: rest => hasUKind item || hasUKindItems rest
termination_by items => sizeOf items

end

/-! ## Concrete leaves used by the claim theorems -/

/-- A `for` keyword leaf inside a comprehension clause (`comp_for` parent),
with no `async` prev-sibling. -/
def leafForComp : Leaf :=
  { lid := 1, type := tNAME, value := "for", parentType := some symCompFor }

/-- A bare comma leaf. -/
def leafComma : Leaf := { lid := 2, type := tCOMMA, value := "," }

/-- A dot in a trailer (not an import / dotted name) whose previous leaf is a
closing parenthesis: the chained-call split point. -/
def leafDotChain : Leaf :=
  { lid := 3, type := tDOT, value := ".", parentType := some symTrailer }

def leafRparPrev : Leaf := { lid := 4, type := tRPAR, value := ")" }

/-- An `and` keyword leaf with a parent. -/
def leafAnd : Leaf :=
  { lid := 5, type := tNAME, value := "and", parentType := some symExpr }

/-- A binary `|` leaf whose parent is the `expr` rule (neither `factor` nor
`star_expr`). -/
def leafVbar : Leaf :=
  { lid := 6, type := tVBAR, value := "|", parentType := some symExpr }

/-- A binary `+` leaf in the same kind of context. -/
def leafPlus : Leaf :=
  { lid := 7, type := tPLUS, value := "+", parentType := some symExpr }

def leafForStmt : Leaf := { lid := 8, type := tNAME, value := "for" }

def leafLambda : Leaf := { lid := 9, type := tNAME, value := "lambda" }

def leafInKw : Leaf := { lid := 10, type := tNAME, value := "in" }

def leafRpar : Leaf := { lid := 11, type := tRPAR, value := ")" }

def leafLpar : Leaf := { lid := 12, type := tLPAR, value := "(" }

def leafRbrace : Leaf := { lid := 13, type := tRBRACE, value := "\x7d" }

instance {e a : Type} [DecidableEq e] [DecidableEq a] :
    DecidableEq (Except e a) := fun x y =>
  match x, y with
  | .ok u, .ok v =>
    if h : u = v then isTrue (by rw [h]) else isFalse (by simp [h])
  | .error u, .error v =>
    if h : u = v then isTrue (by rw [h]) else isFalse (by simp [h])
  | .ok _, .error _ => isFalse (by simp)
  | .error _, .ok _ => isFalse (by simp)

/-! ## Claim theorems -/

/-- C1: the claim says the delimiter priorities form a strictly ordered scale
with comprehension `for` above the bare comma, and no two distinct classes
sharing a nonzero value.  The code instead returns the hard-coded literals
`2` for a comprehension `for`, `5` for a comma and `5` for a chained-call
dot: the comprehension priority is *below* the comma priority and the dot
class collides with the comma class (and boolean logic collides with
comprehensions at `2`), contradicting the declared constants
`COMPREHENSION_PRIORITY = 20` and `COMMA_PRIORITY = 18` the module itself
defines.  This theorem evaluates the code at those failing inputs. -/
theorem C1_delimiter_priority_scale_violated :
    is_split_before_delimiter leafForComp none = 2 ∧
    is_split_after_delimiter leafComma = 5 ∧
    is_split_before_delimiter leafDotChain (some leafRparPrev) = 5 ∧
    is_split_before_delimiter leafAnd none = 2 ∧
    ¬ (is_split_after_delimiter leafComma <
        is_split_before_delimiter leafForComp none) ∧
    is_split_before_delimiter leafForComp none ≠ COMPREHENSION_PRIORITY ∧
    is_split_after_delimiter leafComma ≠ COMMA_PRIORITY := by
  decide

/-- C2: the claim says a freshly constructed `BracketTracker` pushes the
incremented depth and returns `True` on a `for` NAME leaf (symmetrically for
`lambda`).  But the hand-written `__init__` never creates the
`_for_loop_depths` / `_lambda_argument_depths` attributes declared by the
dataclass, so the first access raises `AttributeError` instead.  This theorem
evaluates the embedded methods on the freshly constructed tracker. -/
theorem C2_fresh_tracker_attribute_error :
    maybe_increment_for_loop_variable initTracker leafForStmt =
      .error .attributeError ∧
    maybe_increment_lambda_arguments initTracker leafLambda =
      .error .attributeError ∧
    maybe_decrement_after_for_loop_variable initTracker leafInKw =
      .error .attributeError ∧
    initTracker.for_loop_depths = none ∧
    initTracker.lambda_argument_depths = none := by
  decide

/-- C3: the claim says every binary math operator outside `factor`/`star_expr`
contexts gets a nonzero priority equal to its `MATH_PRIORITIES` tier
(bitwise-or highest at 9).  The code replaces the table with
`{PLUS: 1, MINUS: 1, STAR: 1}` with default 0, so `|` (tier 9 per the
module's own `MATH_PRIORITIES`) yields 0 and `+` yields 1 instead of 5.
This theorem evaluates the code at those failing inputs. -/
theorem C3_math_priorities_collapsed :
    is_split_before_delimiter leafVbar none = 0 ∧
    dLookup MATH_PRIORITIES tVBAR = some 9 ∧
    is_split_before_delimiter leafPlus none = 1 ∧
    dLookup MATH_PRIORITIES tPLUS = some 5 ∧
    is_split_before_delimiter leafVbar none ≠ 9 := by
  decide

/-- C4 counterexample: the claim says extra trailing newlines are removed
before parsing, so `"x\n\n"` would have to become `"x\n"`; the code leaves an
input that already ends in a newline untouched. -/
theorem C4_counterexample_extras_kept :
    ¬ (lib2to3NewlineFix "x\n\n" = "x\n") ∧
    lib2to3NewlineFix "x\n\n" = "x\n\n" := by
  decide

/-- C4 (amended): `lib2to3_parse` hands the parser a text ending in at least
one trailing newline: exactly one newline is appended when the input lacks
one, and an input already ending in a newline is passed through unchanged
(extra trailing newlines are not removed). -/
theorem C4_trailing_newline_amended (s : String) :
    (pyEndswith s "\n" = true → lib2to3NewlineFix s = s) ∧
    (pyEndswith s "\n" = false → lib2to3NewlineFix s = s ++ "\n") ∧
    pyEndswith (lib2to3NewlineFix s) "\n" = true := by
  refine ⟨?_, ?_, ?_⟩
  · intro ht
    unfold lib2to3NewlineFix
    simp [ht]
  · intro hf
    unfold lib2to3NewlineFix
    simp [hf]
  · unfold lib2to3NewlineFix
    by_cases h : pyEndswith s "\n"
    · simp [h]
    · simp only [Bool.not_eq_true] at h
      simp only [h, Bool.not_false, if_true]
      unfold pyEndswith
      rw [List.isSuffixOf_iff_suffix]
      rw [show ("\n" : String).data = ['\n'] from rfl,
        show (s ++ "\n").data = s.data ++ ['\n'] from by simp]
      exact List.suffix_append _ _

/-- C4 witness: the amended theorem applied at the concrete inputs
`"x\n\n"` (already newline-terminated, passed through) and `"x"` (newline
appended). -/
theorem C4_trailing_newline_witness :
    lib2to3NewlineFix "x\n\n" = "x\n\n" ∧ lib2to3NewlineFix "x" = "x" ++ "\n" :=
  ⟨(C4_trailing_newline_amended "x\n\n").1 (by decide),
   (C4_trailing_newline_amended "x").2.1 (by decide)⟩

/-- C10: `delimiter_count_with_priority` returns 0 (it does not raise) on a
tracker with no recorded delimiters, for every priority argument, while
`max_delimiter_priority` raises `ValueError` on the same empty state; and an
explicit priority argument of 0 is treated like the omitted default, i.e. the
count is taken at the line's maximum delimiter priority. -/
theorem C10_delimiter_count_with_priority_total :
    (∀ (st : BracketTracker) (p : Nat), st.delimiters = [] →
        delimiter_count_with_priority st p = .ok 0) ∧
    (∀ st : BracketTracker, st.delimiters = [] →
        max_delimiter_priority st [] = .error ()) ∧
    (∀ st : BracketTracker, st.delimiters ≠ [] →
        ∃ m, max_delimiter_priority st [] = .ok m ∧
          delimiter_count_with_priority st 0 =
            .ok ((st.delimiters.filter (fun kv => kv.2 = m)).length)) := by
  refine ⟨?_, ?_, ?_⟩
  · intro st p h
    unfold delimiter_count_with_priority
    simp [h]
  · intro st h
    unfold max_delimiter_priority
    simp [h]
  · intro st h
    have hmax : ∃ m, max_delimiter_priority st [] = .ok m := by
      unfold max_delimiter_priority
      rcases hd : st.delimiters with _ | ⟨kv, rest⟩
      · exact absurd hd h
      · simp
    obtain ⟨m, hm⟩ := hmax
    refine ⟨m, hm, ?_⟩
    unfold delimiter_count_with_priority
    simp [List.isEmpty_iff, h, hm]

/-- C10 witness: the theorem applied at the freshly initialized tracker (empty
delimiters) and at a tracker holding two delimiters of priority 5. -/
theorem C10_witness :
    delimiter_count_with_priority initTracker 7 = .ok 0 ∧
    max_delimiter_priority initTracker [] = .error () ∧
    ∃ m, max_delimiter_priority
        { initTracker with delimiters := [(1, 5), (2, 5)] } [] = .ok m ∧
      delimiter_count_with_priority
          { initTracker with delimiters := [(1, 5), (2, 5)] } 0 =
        .ok ((({ initTracker with
            delimiters := [(1, 5), (2, 5)] } : BracketTracker).delimiters.filter
              (fun kv => kv.2 = m)).length) :=
  ⟨C10_delimiter_count_with_priority_total.1 initTracker 7 rfl,
   C10_delimiter_count_with_priority_total.2.1 initTracker rfl,
   C10_delimiter_count_with_priority_total.2.2
     { initTracker with delimiters := [(1, 5), (2, 5)] } (by decide)⟩

theorem doOpening_delimiters (st : BracketTracker) (leaf : Leaf) :
    (doOpening st leaf).delimiters = st.delimiters := by
  unfold doOpening
  split <;> rfl

theorem doOpening_previous (st : BracketTracker) (leaf : Leaf) :
    (doOpening st leaf).previous = st.previous := by
  unfold doOpening
  split <;> rfl

theorem recordDelims_cases (st : BracketTracker) (leaf : Leaf) :
    (recordDelims st leaf).delimiters = st.delimiters ∨
    (st.depth = 0 ∧
      ((∃ p, st.previous = some p ∧
          is_split_before_delimiter leaf st.previous ≠ 0 ∧
          (recordDelims st leaf).delimiters =
            dInsert st.delimiters p.lid
              (is_split_before_delimiter leaf st.previous)) ∨
       ((st.previous = none ∨
            is_split_before_delimiter leaf st.previous = 0) ∧
        is_split_after_delimiter leaf ≠ 0 ∧
        (recordDelims st leaf).delimiters =
          dInsert st.delimiters leaf.lid (is_split_after_delimiter leaf)))) := by
  by_cases hd : st.depth = 0
  · rcases hp : st.previous with _ | p
    · by_cases ha : is_split_after_delimiter leaf = 0
      · left
        simp [recordDelims, recordAfter, hd, hp, ha]
      · right
        refine ⟨hd, Or.inr ⟨Or.inl rfl, ha, ?_⟩⟩
        simp [recordDelims, recordAfter, hd, hp, ha]
    · by_cases hb : is_split_before_delimiter leaf (some p) = 0
      · by_cases ha : is_split_after_delimiter leaf = 0
        · left
          simp [recordDelims, recordAfter, hd, hp, hb, ha]
        · right
          refine ⟨hd, Or.inr ⟨Or.inr hb, ha, ?_⟩⟩
          simp [recordDelims, recordAfter, hd, hp, hb, ha]
      · right
        refine ⟨hd, Or.inl ⟨p, rfl, hb, ?_⟩⟩
        simp [recordDelims, recordAfter, hd, hp, hb]
  · left
    simp [recordDelims, hd]

/-- C6: every entry added to the `delimiters` map by a `mark` call is recorded
while the tracker's depth field is 0 (the depth after the closing-bracket
decrement, `recordDepth`), and each call records at most one priority: either
the split-before priority on the previous leaf (only when one exists), or
else the split-after priority on the current leaf, never both. -/
theorem C6_mark_delimiter_discipline (st : BracketTracker) (leaf : Leaf)
    (st2 : BracketTracker) (ann : Option Annots)
    (h : mark st leaf = .ok (st2, ann)) :
    st2.delimiters = st.delimiters ∨
    (recordDepth st leaf = 0 ∧
      ((∃ p, st.previous = some p ∧
          is_split_before_delimiter leaf st.previous ≠ 0 ∧
          st2.delimiters = dInsert st.delimiters p.lid
            (is_split_before_delimiter leaf st.previous)) ∨
       ((st.previous = none ∨
            is_split_before_delimiter leaf st.previous = 0) ∧
        is_split_after_delimiter leaf ≠ 0 ∧
        st2.delimiters = dInsert st.delimiters leaf.lid
          (is_split_after_delimiter leaf)))) := by
  unfold mark at h
  split at h
  · simp only [Except.ok.injEq, Prod.mk.injEq] at h
    exact Or.inl (by rw [← h.1])
  · split at h
    · simp only [Except.ok.injEq, Prod.mk.injEq] at h
      exact Or.inl (by rw [← h.1])
    · split at h
      · rename_i hns hcl
        rcases hp : dPop st.bracket_match (st.depth - 1, leaf.type)
          with ⟨r, m2⟩
        rw [hp] at h
        rcases r with _ | ob
        · exact absurd h (by simp)
        · simp only [Except.ok.injEq, Prod.mk.injEq] at h
          obtain ⟨h1, -⟩ := h
          have hrd : recordDepth st leaf = st.depth - 1 := by
            unfold recordDepth
            rw [if_pos hcl]
          have hdel : st2.delimiters =
              (recordDelims
                { st with depth := st.depth - 1, bracket_match := m2,
                          invisible := updateInvisible st.invisible leaf }
                leaf).delimiters := by
            rw [← h1]
            exact doOpening_delimiters _ _
          rcases recordDelims_cases
              { st with depth := st.depth - 1, bracket_match := m2,
                        invisible := updateInvisible st.invisible leaf }
              leaf with hc | ⟨hzero, hrec⟩
          · exact Or.inl (by rw [hdel, hc])
          · right
            refine ⟨by rw [hrd]; exact hzero, ?_⟩
            rcases hrec with ⟨p, hprev, hb, hres⟩ | ⟨hnone, ha, hres⟩
            · exact Or.inl ⟨p, hprev, hb, by rw [hdel, hres]⟩
            · exact Or.inr ⟨hnone, ha, by rw [hdel, hres]⟩
      · rename_i hns hcl
        simp only [Except.ok.injEq, Prod.mk.injEq] at h
        obtain ⟨h1, -⟩ := h
        have hrd : recordDepth st leaf = st.depth := by
          unfold recordDepth
          rw [if_neg hcl]
        have hdel : st2.delimiters = (recordDelims st leaf).delimiters := by
          rw [← h1]
          exact doOpening_delimiters _ _
        rcases recordDelims_cases st leaf with hc | ⟨hzero, hrec⟩
        · exact Or.inl (by rw [hdel, hc])
        · right
          refine ⟨by rw [hrd]; exact hzero, ?_⟩
          rcases hrec with ⟨p, hprev, hb, hres⟩ | ⟨hnone, ha, hres⟩
          · exact Or.inl ⟨p, hprev, hb, by rw [hdel, hres]⟩
          · exact Or.inr ⟨hnone, ha, by rw [hdel, hres]⟩

/-- The state produced by marking a bare comma on the fresh tracker. -/
def stC6 : BracketTracker :=
  { initTracker with delimiters := [(2, 5)], previous := some leafComma }

/-- C6 witness: the discipline theorem applied at the fresh tracker and a
comma leaf, which records one split-after priority at depth 0. -/
theorem C6_witness :
    stC6.delimiters = initTracker.delimiters ∨
    (recordDepth initTracker leafComma = 0 ∧
      ((∃ p, initTracker.previous = some p ∧
          is_split_before_delimiter leafComma initTracker.previous ≠ 0 ∧
          stC6.delimiters = dInsert initTracker.delimiters p.lid
            (is_split_before_delimiter leafComma initTracker.previous)) ∨
       ((initTracker.previous = none ∨
            is_split_before_delimiter leafComma initTracker.previous = 0) ∧
        is_split_after_delimiter leafComma ≠ 0 ∧
        stC6.delimiters = dInsert initTracker.delimiters leafComma.lid
          (is_split_after_delimiter leafComma)))) :=
  C6_mark_delimiter_discipline initTracker leafComma stC6
    (some { bracket_depth := 0, opening_bracket := none }) (by decide)

/-! ## Bracket-tracker invariants (for C5) -/

theorem dLookup_some_mem {α β : Type} [DecidableEq α] {m : List (α × β)}
    {k : α} {v : β} (h : dLookup m k = some v) : (k, v) ∈ m := by
  induction m with
  | nil => simp [dLookup] at h
  | cons hd tl ih =>
    obtain ⟨k2, v2⟩ := hd
    by_cases hk : k2 = k
    · subst hk
      rw [dLookup, if_pos rfl] at h
      injection h with h
      subst h
      exact List.mem_cons_self _ _
    · rw [dLookup, if_neg hk] at h
      exact List.mem_cons_of_mem _ (ih h)

theorem dPop_decomp {α β : Type} [DecidableEq α] {m m2 : List (α × β)}
    {k : α} {v : β} (h : dPop m k = (some v, m2)) :
    ∃ pre post, m = pre ++ (k, v) :: post ∧ m2 = pre ++ post := by
  induction m generalizing m2 with
  | nil => simp [dPop] at h
  | cons hd tl ih =>
    obtain ⟨k2, v2⟩ := hd
    by_cases hk : k2 = k
    · subst hk
      rw [dPop, if_pos rfl] at h
      simp only [Prod.mk.injEq, Option.some.injEq] at h
      exact ⟨[], tl, by simp [h.1], by simp [h.2.symm]⟩
    · rcases hp : dPop tl k with ⟨r, mm⟩
      rw [dPop, if_neg hk, hp] at h
      simp only [Prod.mk.injEq] at h
      obtain ⟨h1, h2⟩ := h
      subst h1
      obtain ⟨pre, post, h3, h4⟩ := ih hp
      exact ⟨(k2, v2) :: pre, post, by simp [h3], by simp [← h2, h4]⟩

theorem dInsert_append {α β : Type} [DecidableEq α] {m : List (α × β)}
    {k : α} (v : β) (h : ∀ e ∈ m, e.1 ≠ k) : dInsert m k v = m ++ [(k, v)] := by
  induction m with
  | nil => rfl
  | cons hd tl ih =>
    obtain ⟨k2, v2⟩ := hd
    have hne : k2 ≠ k := h (k2, v2) (List.mem_cons_self _ _)
    rw [dInsert, if_neg hne, ih (fun e he => h e (List.mem_cons_of_mem _ he))]
    simp

/-- The state invariant maintained by `mark`: depth is non-negative, every
recorded opening bracket sits at a depth strictly below the current one, and
no two recorded openings share a depth. -/
def TrackerInv (st : BracketTracker) : Prop :=
  0 ≤ st.depth ∧
  (∀ e ∈ st.bracket_match, 0 ≤ e.1.1 ∧ e.1.1 < st.depth) ∧
  (st.bracket_match.map (fun e => e.1.1)).Nodup

theorem recordDelims_depth (st : BracketTracker) (leaf : Leaf) :
    (recordDelims st leaf).depth = st.depth := by
  unfold recordDelims recordAfter
  repeat' split
  all_goals rfl

theorem recordDelims_bracket_match (st : BracketTracker) (leaf : Leaf) :
    (recordDelims st leaf).bracket_match = st.bracket_match := by
  unfold recordDelims recordAfter
  repeat' split
  all_goals rfl

theorem inv_recordDelims {st : BracketTracker} {leaf : Leaf}
    (h : TrackerInv st) : TrackerInv (recordDelims st leaf) := by
  obtain ⟨h1, h2, h3⟩ := h
  refine ⟨?_, ?_, ?_⟩
  · rw [recordDelims_depth]; exact h1
  · intro e he
    rw [recordDelims_bracket_match] at he
    rw [recordDelims_depth]
    exact h2 e he
  · rw [recordDelims_bracket_match]; exact h3

theorem inv_doOpening {st : BracketTracker} {leaf : Leaf}
    (h : TrackerInv st) : TrackerInv (doOpening st leaf) := by
  unfold doOpening
  split
  · obtain ⟨h1, h2, h3⟩ := h
    have hfresh : ∀ e ∈ st.bracket_match,
        e.1 ≠ (st.depth, BRACKET_CLOSE leaf.type) := by
      intro e he hq
      have h4 := (h2 e he).2
      rw [hq] at h4
      simp at h4
    refine ⟨by simp; omega, ?_, ?_⟩
    · intro e he
      simp only at he ⊢
      rw [dInsert_append leaf hfresh] at he
      rcases List.mem_append.mp he with h4 | h4
      · have h5 := h2 e h4
        exact ⟨h5.1, by omega⟩
      · simp at h4
        rw [h4]
        simp
        omega
    · simp only
      rw [dInsert_append leaf hfresh, List.map_append]
      refine List.Nodup.append h3 (by simp) ?_
      intro a ha hb
      simp at hb
      rcases List.mem_map.mp ha with ⟨e, he, hq⟩
      have := (h2 e he).2
      omega
  · exact h

theorem inv_previous {st : BracketTracker} {p : Option Leaf}
    (h : TrackerInv st) : TrackerInv { st with previous := p } := h

theorem inv_mark {st : BracketTracker} {leaf : Leaf} {st2 : BracketTracker}
    {ann : Option Annots} (hinv : TrackerInv st)
    (h : mark st leaf = .ok (st2, ann)) : TrackerInv st2 := by
  unfold mark at h
  split at h
  · simp only [Except.ok.injEq, Prod.mk.injEq] at h
    rw [← h.1]
    exact hinv
  · split at h
    · simp only [Except.ok.injEq, Prod.mk.injEq] at h
      rw [← h.1]
      exact hinv
    · split at h
      · rename_i hns hcl
        rcases hp : dPop st.bracket_match (st.depth - 1, leaf.type)
          with ⟨r, m2⟩
        rw [hp] at h
        rcases r with _ | ob
        · exact absurd h (by simp)
        · simp only [Except.ok.injEq, Prod.mk.injEq] at h
          obtain ⟨h1, -⟩ := h
          obtain ⟨hd0, hents, hnd⟩ := hinv
          have hdep : st.depth ≠ 0 := by
            intro hz
            apply hns
            refine ⟨hz, hcl, ?_⟩
            rcases hl : dLookup st.bracket_match (st.depth, leaf.type)
              with _ | x
            · rfl
            · exfalso
              have hm := dLookup_some_mem hl
              have h5 := (hents _ hm).2
              simp at h5
          obtain ⟨pre, post, hm, hm2⟩ := dPop_decomp hp
          have hinv1 : TrackerInv
              { st with depth := st.depth - 1, bracket_match := m2,
                        invisible := updateInvisible st.invisible leaf } := by
            refine ⟨by simp; omega, ?_, ?_⟩
            · intro e he
              simp only at he ⊢
              rw [hm2] at he
              have hemem : e ∈ st.bracket_match := by
                rw [hm]
                rcases List.mem_append.mp he with h4 | h4
                · exact List.mem_append.mpr (Or.inl h4)
                · exact List.mem_append.mpr
                    (Or.inr (List.mem_cons_of_mem _ h4))
              have h5 := hents e hemem
              have hne : e.1.1 ≠ st.depth - 1 := by
                intro hq
                rw [hm, List.map_append, List.map_cons] at hnd
                rcases List.mem_append.mp he with h4 | h4
                · have hdisj := List.disjoint_of_nodup_append hnd
                  exact hdisj (List.mem_map.mpr ⟨e, h4, rfl⟩)
                    (by rw [hq]; simp)
                · have hnd2 := List.Nodup.of_append_right hnd
                  rw [List.nodup_cons] at hnd2
                  exact hnd2.1
                    (by rw [← hq]; exact List.mem_map.mpr ⟨e, h4, rfl⟩)
              exact ⟨h5.1, by omega⟩
            · show (List.map (fun e => e.1.1) m2).Nodup
              rw [hm2]
              rw [hm] at hnd
              refine List.Nodup.sublist ?_ hnd
              exact List.Sublist.map _
                (List.Sublist.append_left (List.sublist_cons_self _ _) _)
          rw [← h1]
          exact inv_previous (inv_doOpening (inv_recordDelims hinv1))
      · simp only [Except.ok.injEq, Prod.mk.injEq] at h
        obtain ⟨h1, -⟩ := h
        rw [← h1]
        exact inv_previous (inv_doOpening (inv_recordDelims hinv))

theorem inv_markAll {st st2 : BracketTracker} {leaves : List Leaf}
    (hinv : TrackerInv st) (h : markAll st leaves = .ok st2) :
    TrackerInv st2 := by
  induction leaves generalizing st with
  | nil =>
    simp only [markAll, Except.ok.injEq] at h
    rw [← h]
    exact hinv
  | cons l ls ih =>
    rw [markAll] at h
    rcases hm : mark st l with e | ⟨st1, ann⟩
    · rw [hm] at h; cases h
    · rw [hm] at h
      exact ih (inv_mark hinv hm) h

theorem inv_initTracker : TrackerInv initTracker := by
  refine ⟨by simp [initTracker], by simp [initTracker], by simp [initTracker]⟩

theorem closing_cases {t : Nat} (h : CLOSING_BRACKETS.contains t = true) :
    t = tRPAR ∨ t = tRSQB ∨ t = tRBRACE := by
  simp [CLOSING_BRACKETS] at h
  tauto

theorem closing_ne_comment {t : Nat} (h : CLOSING_BRACKETS.contains t = true) :
    t ≠ tCOMMENT := by
  rcases closing_cases h with rfl | rfl | rfl <;> decide

/-- C5: when `mark` processes a closing-bracket leaf: at depth 0 with no
record for `(depth, kind)` the leaf is skipped with the whole state (and the
leaf's annotations) unchanged; at positive depth, if popping the record for
`(depth - 1, kind)` finds no opening leaf a `BracketMatchError` carrying the
offending leaf is raised; otherwise the matched opening leaf is stored as the
closing leaf's `opening_bracket` back-reference (with `bracket_depth` stamped
at the decremented depth); and along any successful `mark` sequence from a
fresh tracker the depth never becomes negative. -/
theorem C5_mark_closing_bracket :
    (∀ (st : BracketTracker) (leaf : Leaf),
        CLOSING_BRACKETS.contains leaf.type = true → st.depth = 0 →
        dLookup st.bracket_match (st.depth, leaf.type) = none →
        mark st leaf = .ok (st, none)) ∧
    (∀ (st : BracketTracker) (leaf : Leaf),
        CLOSING_BRACKETS.contains leaf.type = true → 0 < st.depth →
        (dPop st.bracket_match (st.depth - 1, leaf.type)).1 = none →
        mark st leaf = .error leaf) ∧
    (∀ (st : BracketTracker) (leaf : Leaf) (ob : Leaf),
        CLOSING_BRACKETS.contains leaf.type = true → 0 < st.depth →
        (dPop st.bracket_match (st.depth - 1, leaf.type)).1 = some ob →
        ∃ st2 ann, mark st leaf = .ok (st2, some ann) ∧
          ann.opening_bracket = some ob ∧
          ann.bracket_depth = st.depth - 1) ∧
    (∀ (leaves : List Leaf) (st2 : BracketTracker),
        markAll initTracker leaves = .ok st2 → 0 ≤ st2.depth) := by
  refine ⟨?_, ?_, ?_, ?_⟩
  · intro st leaf hcl h0 hl
    unfold mark
    rw [if_neg (closing_ne_comment hcl), if_pos ⟨h0, hcl, hl⟩]
  · intro st leaf hcl hpos hpop
    have hskip : ¬(st.depth = 0 ∧ CLOSING_BRACKETS.contains leaf.type = true ∧
        dLookup st.bracket_match (st.depth, leaf.type) = none) := by
      rintro ⟨hz, -, -⟩
      omega
    unfold mark
    rw [if_neg (closing_ne_comment hcl), if_neg hskip, if_pos hcl]
    rcases hp : dPop st.bracket_match (st.depth - 1, leaf.type) with ⟨r, m2⟩
    rw [hp] at hpop
    simp only at hpop
    subst hpop
    rfl
  · intro st leaf ob hcl hpos hpop
    have hskip : ¬(st.depth = 0 ∧ CLOSING_BRACKETS.contains leaf.type = true ∧
        dLookup st.bracket_match (st.depth, leaf.type) = none) := by
      rintro ⟨hz, -, -⟩
      omega
    unfold mark
    rw [if_neg (closing_ne_comment hcl), if_neg hskip, if_pos hcl]
    rcases hp : dPop st.bracket_match (st.depth - 1, leaf.type) with ⟨r, m2⟩
    rw [hp] at hpop
    simp only at hpop
    subst hpop
    exact ⟨_, _, rfl, rfl, rfl⟩
  · intro leaves st2 h
    exact (inv_markAll inv_initTracker h).1

/-- A depth-1 tracker holding the record of an open `(`. -/
def stC5 : BracketTracker :=
  { initTracker with depth := 1, bracket_match := [((0, tRPAR), leafLpar)] }

/-- C5 witness: the clauses of the closing-bracket theorem applied at a fresh
tracker (stray `)` skipped), a depth-1 tracker holding a `(` record asked to
close `}` (mismatch error), and the same tracker closing `)` (matched
back-reference). -/
theorem C5_witness :
    mark initTracker leafRpar = .ok (initTracker, none) ∧
    mark stC5 leafRbrace = .error leafRbrace ∧
    (∃ st2 ann, mark stC5 leafRpar = .ok (st2, some ann) ∧
      ann.opening_bracket = some leafLpar ∧
      ann.bracket_depth = stC5.depth - 1) ∧
    (∀ st2, markAll initTracker [leafLpar, leafComma, leafRpar] = .ok st2 →
      0 ≤ st2.depth) :=
  ⟨C5_mark_closing_bracket.1 initTracker leafRpar (by decide) rfl rfl,
   C5_mark_closing_bracket.2.1 stC5 leafRbrace (by decide) (by decide)
     (by decide),
   C5_mark_closing_bracket.2.2.1 stC5 leafRpar leafLpar (by decide) (by decide)
     (by decide),
   fun st2 h => C5_mark_closing_bracket.2.2.2 _ st2 h⟩

/-! ## Grammar fallback lemmas (for C7) -/

/-- The error value a failing grammar contributes (total by defaulting the
impossible success case). -/
def errVal (outcome : Grammar → Except String PTree) (g : Grammar) : String :=
  match outcome g with
  | .error e => e
  | .ok _ => ""

theorem foldl_max_const : ∀ (l : List Nat) (init : Nat),
    (∀ b ∈ l, b ≤ init) → List.foldl max init l = init := by
  intro l
  induction l with
  | nil => intro init _; rfl
  | cons c t ih =>
    intro init h
    rw [List.foldl_cons]
    have hc : c ≤ init := h c (List.mem_cons_self _ _)
    rw [max_eq_left hc]
    exact ih init (fun b hb => h b (List.mem_cons_of_mem _ hb))

theorem foldl_max_mem : ∀ (l : List Nat) (init a : Nat),
    init ≤ a → a ∈ l → (∀ b ∈ l, b ≤ a) → List.foldl max init l = a := by
  intro l
  induction l with
  | nil => intro init a _ ha _; cases ha
  | cons c t ih =>
    intro init a hinit ha hub
    rw [List.foldl_cons]
    rcases List.mem_cons.mp ha with rfl | ha2
    · rw [max_eq_right hinit]
      exact foldl_max_const t a (fun b hb => hub b (List.mem_cons_of_mem _ hb))
    · exact ih (max init c) a
        (max_le hinit (hub c (List.mem_cons_self _ _))) ha2
        (fun b hb => hub b (List.mem_cons_of_mem _ hb))

theorem dLookup_of_mem_nodup {α β : Type} [DecidableEq α]
    {es : List (α × β)} {k : α} {v : β} (hmem : (k, v) ∈ es)
    (hnd : (es.map (fun e => e.1)).Nodup) : dLookup es k = some v := by
  induction es with
  | nil => cases hmem
  | cons hd tl ih =>
    obtain ⟨k2, v2⟩ := hd
    rcases List.mem_cons.mp hmem with heq | hmem2
    · injection heq with e1 e2
      subst e1
      subst e2
      rw [dLookup, if_pos rfl]
    · rw [List.map_cons, List.nodup_cons] at hnd
      have hk : k2 ≠ k := by
        intro rfl2
        subst rfl2
        exact hnd.1 (List.mem_map.mpr ⟨(k2, v), hmem2, rfl⟩)
      rw [dLookup, if_neg hk]
      exact ih hmem2 hnd.2

theorem lib2to3Loop_short_circuit
    (outcome : Grammar → Except String PTree) :
    ∀ (gs1 : List Grammar) (g : Grammar) (gs2 : List Grammar) (r : PTree)
      (errors : List (Nat × String)),
      (∀ g2 ∈ gs1, ∃ e, outcome g2 = .error e) →
      outcome g = .ok r →
      lib2to3Loop outcome (gs1 ++ g :: gs2) errors = .ok r := by
  intro gs1
  induction gs1 with
  | nil =>
    intro g gs2 r errors _ hg
    rw [List.nil_append, lib2to3Loop, hg]
  | cons g1 t ih =>
    intro g gs2 r errors hfail hg
    obtain ⟨e1, he1⟩ := hfail g1 (List.mem_cons_self _ _)
    rw [List.cons_append, lib2to3Loop, he1]
    exact ih g gs2 r _ (fun g2 h2 => hfail g2 (List.mem_cons_of_mem _ h2)) hg

theorem lib2to3Loop_all_fail (outcome : Grammar → Except String PTree) :
    ∀ (gs : List Grammar) (errors : List (Nat × String)),
      (∀ g ∈ gs, ∃ e, outcome g = .error e) →
      lib2to3Loop outcome gs errors =
        lib2to3Loop outcome []
          (gs.foldl (fun es g => dInsert es g.version (errVal outcome g))
            errors) := by
  intro gs
  induction gs with
  | nil => intro errors _; rfl
  | cons g t ih =>
    intro errors hfail
    obtain ⟨e, he⟩ := hfail g (List.mem_cons_self _ _)
    have hev : errVal outcome g = e := by unfold errVal; rw [he]
    have step : lib2to3Loop outcome (g :: t) errors =
        lib2to3Loop outcome t
          (dInsert errors g.version (errVal outcome g)) := by
      simp only [lib2to3Loop, he, hev]
    rw [step, List.foldl_cons,
      ih _ (fun g2 h2 => hfail g2 (List.mem_cons_of_mem _ h2))]

theorem buildErrors_eq (outcome : Grammar → Except String PTree) :
    ∀ (gs : List Grammar) (errors : List (Nat × String)),
      (∀ g ∈ gs, ∀ e ∈ errors, e.1 ≠ g.version) →
      (gs.map Grammar.version).Nodup →
      gs.foldl (fun es g => dInsert es g.version (errVal outcome g)) errors =
        errors ++ gs.map (fun g => (g.version, errVal outcome g)) := by
  intro gs
  induction gs with
  | nil => intro errors _ _; simp
  | cons g t ih =>
    intro errors hdis hnd
    rw [List.foldl_cons,
      dInsert_append (errVal outcome g)
        (fun e he => hdis g (List.mem_cons_self _ _) e he)]
    rw [List.map_cons, List.nodup_cons] at hnd
    rw [ih (errors ++ [(g.version, errVal outcome g)]) ?_ hnd.2]
    · simp
    · intro g2 hg2 e he
      rcases List.mem_append.mp he with h4 | h4
      · exact hdis g2 (List.mem_cons_of_mem _ hg2) e h4
      · simp at h4
        subst h4
        show g.version ≠ g2.version
        intro hq
        apply hnd.1
        rw [hq]
        exact List.mem_map.mpr ⟨g2, hg2, rfl⟩

/-- C7: candidate grammars are attempted in order with the first successful
parse short-circuiting the rest (the later candidates are never consulted),
every failure is stored keyed by the grammar's version, and when all
candidates fail the raised error is the one recorded for the numerically
highest grammar version. -/
theorem C7_grammar_fallback :
    (∀ (outcome : Grammar → Except String PTree) (gs1 : List Grammar)
        (g : Grammar) (gs2 : List Grammar) (r : PTree),
        (∀ g2 ∈ gs1, ∃ e, outcome g2 = .error e) →
        outcome g = .ok r →
        lib2to3_parse outcome (gs1 ++ g :: gs2) = .ok (wrapResult r)) ∧
    (∀ (outcome : Grammar → Except String PTree) (gs : List Grammar)
        (gmax : Grammar) (e : String),
        gmax ∈ gs →
        (gs.map Grammar.version).Nodup →
        (∀ g2 ∈ gs, g2.version ≤ gmax.version) →
        (∀ g2 ∈ gs, ∃ e2, outcome g2 = .error e2) →
        outcome gmax = .error e →
        lib2to3_parse outcome gs = .error (some e)) := by
  constructor
  · intro outcome gs1 g gs2 r hfail hok
    unfold lib2to3_parse
    rw [lib2to3Loop_short_circuit outcome gs1 g gs2 r [] hfail hok]
    rfl
  · intro outcome gs gmax e hgm hnd hub hfail hge
    unfold lib2to3_parse
    rw [lib2to3Loop_all_fail outcome gs [] hfail,
      buildErrors_eq outcome gs [] (by simp) hnd, List.nil_append]
    have hEmap : ((gs.map (fun g => (g.version, errVal outcome g))).map
        (fun kv => kv.1)) = gs.map Grammar.version := by
      rw [List.map_map]
      rfl
    have hmax : (((gs.map (fun g => (g.version, errVal outcome g))).map
        (fun kv => kv.1)).foldl max 0) = gmax.version := by
      rw [hEmap]
      refine foldl_max_mem _ 0 gmax.version (Nat.zero_le _)
        (List.mem_map.mpr ⟨gmax, hgm, rfl⟩) ?_
      intro b hb
      rcases List.mem_map.mp hb with ⟨g2, hg2, rfl⟩
      exact hub g2 hg2
    have hlook : dLookup (gs.map (fun g => (g.version, errVal outcome g)))
        gmax.version = some (errVal outcome gmax) :=
      dLookup_of_mem_nodup (List.mem_map.mpr ⟨gmax, hgm, rfl⟩)
        (by rw [hEmap]; exact hnd)
    have hev : errVal outcome gmax = e := by unfold errVal; rw [hge]
    simp only [lib2to3Loop, hmax, hlook, hev]
    rfl

/-- A driver outcome where only the version-2 grammar parses. -/
def outcomeW : Grammar → Except String PTree := fun g =>
  if g.version = 2 then .ok (.leaf tNAME "x") else .error "no"

/-- A driver outcome where every grammar fails, the version-9 grammar with a
distinguished message. -/
def outcomeF : Grammar → Except String PTree := fun g =>
  .error (if g.version = 9 then "latest" else "older")

/-- C7 witness: the fallback theorem applied to a concrete three-candidate
list where the middle candidate succeeds, and to a concrete all-failing list
where the raised error is the version-9 one. -/
theorem C7_witness :
    lib2to3_parse outcomeW
        ([{ version := 1 }] ++ { version := 2 } :: [{ version := 3 }]) =
      .ok (wrapResult (.leaf tNAME "x")) ∧
    lib2to3_parse outcomeF
        [{ version := 3 }, { version := 9 }, { version := 7 }] =
      .error (some "latest") := by
  constructor
  · refine C7_grammar_fallback.1 outcomeW [{ version := 1 }] { version := 2 }
      [{ version := 3 }] (.leaf tNAME "x") ?_ rfl
    intro g2 hg2
    simp at hg2
    subst hg2
    exact ⟨"no", rfl⟩
  · refine C7_grammar_fallback.2 outcomeF
      [{ version := 3 }, { version := 9 }, { version := 7 }]
      { version := 9 } "latest" (by decide) (by decide) (by decide) ?_ rfl
    intro g2 hg2
    exact ⟨_, rfl⟩

mutual

theorem stringifyVal_snd (v : PyVal) (stack : List PyVal) :
    (stringifyVal v stack).2 = clearU v := by
  match v with
  | .node name fields =>
    by_cases hmut : (name == "Constant" && isStrU fields) = true
    · by_cases hti : (name == "TypeIgnore") = true
      · simp only [stringifyVal, clearU, hmut, hti, if_true]
      · rcases hsf : stringifyFields name
            (PyVal.node name (setKindNone fields)) stack (setKindNone fields)
          with ⟨body, f2⟩
        have h1 := stringifyFields_snd name
          (PyVal.node name (setKindNone fields)) stack (setKindNone fields)
        rw [hsf] at h1
        simp at h1
        simp only [stringifyVal, clearU, hmut, hti, if_true, if_false,
          Bool.false_eq_true, hsf]
        simp [h1]
    · by_cases hti : (name == "TypeIgnore") = true
      · simp only [stringifyVal, clearU, hmut, hti, if_true,
          Bool.false_eq_true, if_false]
      · rcases hsf : stringifyFields name (PyVal.node name fields) stack fields
          with ⟨body, f2⟩
        have h1 := stringifyFields_snd name (PyVal.node name fields) stack
          fields
        rw [hsf] at h1
        simp at h1
        simp only [stringifyVal, clearU, hmut, hti, Bool.false_eq_true,
          if_false, hsf]
        simp [h1]
  | .vlist items => simp [stringifyVal, clearU]
  | .vstr s => simp [stringifyVal, clearU]
  | .vint n => simp [stringifyVal, clearU]
  | .vnone => simp [stringifyVal, clearU]
termination_by sizeOf v
decreasing_by
  all_goals simp_wf
  all_goals try simp
  all_goals first
    | (have hsz := sizeOf_setKindNone fields; omega)
    | omega

theorem stringifyFields_snd (name : String) (self : PyVal)
    (stack : List PyVal) (fs : List (String × PyVal)) :
    (stringifyFields name self stack fs).2 = clearUFields name fs := by
  match fs with
  | [] => simp [stringifyFields, clearUFields]
  | (fname, v) :: rest =>
    have hrest := stringifyFields_snd name self stack rest
    rcases hr : stringifyFields name self stack rest with ⟨l2, rest2⟩
    rw [hr] at hrest
    simp at hrest
    match v with
    | .vlist items =>
      have hit := stringifyItems_snd name self stack fname items
      rcases hi : stringifyItems name self stack fname items with ⟨l, items2⟩
      rw [hi] at hit
      simp at hit
      simp only [stringifyFields, clearUFields, hi, hr]
      simp [hit, hrest]
    | .node n2 f2 =>
      have hv := stringifyVal_snd (PyVal.node n2 f2) (stack ++ [self])
      rcases hs : stringifyVal (PyVal.node n2 f2) (stack ++ [self])
        with ⟨l, v2⟩
      rw [hs] at hv
      simp at hv
      simp only [stringifyFields, clearUFields, hs, hr]
      simp [hv, hrest]
    | .vstr s =>
      simp only [stringifyFields, clearUFields, hr]
      simp [hrest]
    | .vint n =>
      simp only [stringifyFields, clearUFields, hr]
      simp [hrest]
    | .vnone =>
      simp only [stringifyFields, clearUFields, hr]
      simp [hrest]
termination_by sizeOf fs
decreasing_by
  all_goals simp_wf
  all_goals try simp
  all_goals omega

theorem stringifyItems_snd (name : String) (self : PyVal)
    (stack : List PyVal) (fname : String) (items : List PyVal) :
    (stringifyItems name self stack fname items).2 =
      clearUItems name fname items := by
  match items with
  | [] => simp [stringifyItems, clearUItems]
  | item :: rest =>
    have hrest := stringifyItems_snd name self stack fname rest
    rcases hr : stringifyItems name self stack fname rest with ⟨l2, rest2⟩
    rw [hr] at hrest
    simp at hrest
    match item with
    | .node n fs =>
      by_cases hsp : (fname == "targets" && name == "Delete" && n == "Tuple")
        = true
      · have htf := stringifyTupleFields_snd self stack fs
        rcases ht : stringifyTupleFields self stack fs with ⟨l, fs2⟩
        rw [ht] at htf
        simp at htf
        simp only [stringifyItems, clearUItems, hsp, if_true, ht, hr]
        simp [htf, hrest]
      · have hv := stringifyVal_snd (PyVal.node n fs) (stack ++ [self])
        rcases hs : stringifyVal (PyVal.node n fs) (stack ++ [self])
          with ⟨l, v2⟩
        rw [hs] at hv
        simp at hv
        simp only [stringifyItems, clearUItems, hsp, Bool.false_eq_true,
          if_false, hs, hr]
        simp [hv, hrest]
    | .vlist its =>
      simp only [stringifyItems, clearUItems, hr]
      simp [hrest]
    | .vstr s =>
      simp only [stringifyItems, clearUItems, hr]
      simp [hrest]
    | .vint n =>
      simp only [stringifyItems, clearUItems, hr]
      simp [hrest]
    | .vnone =>
      simp only [stringifyItems, clearUItems, hr]
      simp [hrest]
termination_by sizeOf items
decreasing_by
  all_goals simp_wf
  all_goals try simp
  all_goals omega

theorem stringifyTupleFields_snd (self : PyVal) (stack : List PyVal)
    (fs : List (String × PyVal)) :
    (stringifyTupleFields self stack fs).2 = clearUTupleFields fs := by
  match fs with
  | [] => simp [stringifyTupleFields, clearUTupleFields]
  | (fname, v) :: rest =>
    by_cases hf : fname = "elts"
    · subst hf
      match v with
      | .vlist items =>
        have he := stringifyElts_snd self stack items
        rcases hs : stringifyElts self stack items with ⟨l, items2⟩
        rw [hs] at he
        simp at he
        simp only [stringifyTupleFields, clearUTupleFields, hs]
        simp [he]
      | .node n2 f2 =>
        simp [stringifyTupleFields.eq_def, clearUTupleFields.eq_def]
      | .vstr s =>
        simp [stringifyTupleFields.eq_def, clearUTupleFields.eq_def]
      | .vint n =>
        simp [stringifyTupleFields.eq_def, clearUTupleFields.eq_def]
      | .vnone =>
        simp [stringifyTupleFields.eq_def, clearUTupleFields.eq_def]
    · have hrest := stringifyTupleFields_snd self stack rest
      rcases hr : stringifyTupleFields self stack rest with ⟨l2, rest2⟩
      rw [hr] at hrest
      simp at hrest
      rw [stringifyTupleFields.eq_def, clearUTupleFields.eq_def]
      simp [hf, hr, hrest]
termination_by sizeOf fs
decreasing_by
  all_goals simp_wf
  all_goals try simp
  all_goals omega

theorem stringifyElts_snd (self : PyVal) (stack : List PyVal)
    (items : List PyVal) :
    (stringifyElts self stack items).2 = clearUElts items := by
  match items with
  | [] => simp [stringifyElts, clearUElts]
  | item :: rest =>
    have hrest := stringifyElts_snd self stack rest
    rcases hr : stringifyElts self stack rest with ⟨l2, rest2⟩
    rw [hr] at hrest
    simp at hrest
    match item with
    | .node n fs =>
      have hv := stringifyVal_snd (PyVal.node n fs) (stack ++ [self])
      rcases hs : stringifyVal (PyVal.node n fs) (stack ++ [self])
        with ⟨l, v2⟩
      rw [hs] at hv
      simp at hv
      simp only [stringifyElts, clearUElts, hs, hr]
      simp [hv, hrest]
    | .vlist its =>
      simp only [stringifyElts, clearUElts, hr]
      simp [hrest]
    | .vstr s =>
      simp only [stringifyElts, clearUElts, hr]
      simp [hrest]
    | .vint n =>
      simp only [stringifyElts, clearUElts, hr]
      simp [hrest]
    | .vnone =>
      simp only [stringifyElts, clearUElts, hr]
      simp [hrest]
termination_by sizeOf items
decreasing_by
  all_goals simp_wf
  all_goals try simp
  all_goals omega

end

mutual

theorem clearU_id (v : PyVal) (h : hasUKind v = false) : clearU v = v := by
  match v, h with
  | .node name fields, h =>
    rw [hasUKind] at h
    simp only [Bool.or_eq_false_iff] at h
    by_cases hti : (name == "TypeIgnore") = true
    · simp [clearU, h.1, hti]
    · simp [clearU, h.1, hti, clearUFields_id name fields h.2]
  | .vlist items, _ => simp [clearU]
  | .vstr s, _ => simp [clearU]
  | .vint n, _ => simp [clearU]
  | .vnone, _ => simp [clearU]
termination_by sizeOf v
decreasing_by
  all_goals simp_wf
  all_goals omega

theorem clearUFields_id (name : String) (fs : List (String × PyVal))
    (h : hasUKindFields fs = false) : clearUFields name fs = fs := by
  match fs, h with
  | [], _ => simp [clearUFields]
  | (fname, .vlist items) :: rest, h =>
    rw [hasUKindFields] at h
    simp only [Bool.or_eq_false_iff] at h
    have hits : hasUKindItems items = false := by
      have h1 := h.1
      rwa [hasUKind] at h1
    simp [clearUFields, clearUFields_id name rest h.2,
      clearUItems_id name fname items hits]
  | (fname, .node n2 f2) :: rest, h =>
    rw [hasUKindFields] at h
    simp only [Bool.or_eq_false_iff] at h
    simp [clearUFields, clearUFields_id name rest h.2,
      clearU_id (PyVal.node n2 f2) h.1]
  | (fname, .vstr s) :: rest, h =>
    rw [hasUKindFields] at h
    simp only [Bool.or_eq_false_iff] at h
    simp [clearUFields, clearUFields_id name rest h.2]
  | (fname, .vint n) :: rest, h =>
    rw [hasUKindFields] at h
    simp only [Bool.or_eq_false_iff] at h
    simp [clearUFields, clearUFields_id name rest h.2]
  | (fname, .vnone) :: rest, h =>
    rw [hasUKindFields] at h
    simp only [Bool.or_eq_false_iff] at h
    simp [clearUFields, clearUFields_id name rest h.2]
termination_by sizeOf fs
decreasing_by
  all_goals simp_wf
  all_goals omega

theorem clearUItems_id (name fname : String) (items : List PyVal)
    (h : hasUKindItems items = false) :
    clearUItems name fname items = items := by
  match items, h with
  | [], _ => simp [clearUItems]
  | .node n fs :: rest, h =>
    rw [hasUKindItems] at h
    simp only [Bool.or_eq_false_iff] at h
    by_cases hsp : (fname == "targets" && name == "Delete" && n == "Tuple")
      = true
    · have hfs : hasUKindFields fs = false := by
        have h1 := h.1
        rw [hasUKind] at h1
        simp only [Bool.or_eq_false_iff] at h1
        exact h1.2
      simp [clearUItems, hsp, clearUItems_id name fname rest h.2,
        clearUTupleFields_id fs hfs]
    · simp [clearUItems, hsp, clearUItems_id name fname rest h.2,
        clearU_id (PyVal.node n fs) h.1]
  | .vlist its :: rest, h =>
    rw [hasUKindItems] at h
    simp only [Bool.or_eq_false_iff] at h
    simp [clearUItems, clearUItems_id name fname rest h.2]
  | .vstr s :: rest, h =>
    rw [hasUKindItems] at h
    simp only [Bool.or_eq_false_iff] at h
    simp [clearUItems, clearUItems_id name fname rest h.2]
  | .vint n :: rest, h =>
    rw [hasUKindItems] at h
    simp only [Bool.or_eq_false_iff] at h
    simp [clearUItems, clearUItems_id name fname rest h.2]
  | .vnone :: rest, h =>
    rw [hasUKindItems] at h
    simp only [Bool.or_eq_false_iff] at h
    simp [clearUItems, clearUItems_id name fname rest h.2]
termination_by sizeOf items
decreasing_by
  all_goals simp_wf
  all_goals omega

theorem clearUTupleFields_id (fs : List (String × PyVal))
    (h : hasUKindFields fs = false) : clearUTupleFields fs = fs := by
  match fs, h with
  | [], _ => simp [clearUTupleFields]
  | ("elts", .vlist items) :: rest, h =>
    rw [hasUKindFields] at h
    simp only [Bool.or_eq_false_iff] at h
    have hits : hasUKindItems items = false := by
      have h1 := h.1
      rwa [hasUKind] at h1
    simp [clearUTupleFields, clearUElts_id items hits]
  | (fname, v) :: rest, h =>
    rw [hasUKindFields] at h
    simp only [Bool.or_eq_false_iff] at h
    by_cases hf : fname = "elts"
    · subst hf
      cases hveq : v with
      | vlist items =>
        have hits : hasUKindItems items = false := by
          have h1 := h.1
          rw [hveq] at h1
          rwa [hasUKind] at h1
        subst hveq
        simp [clearUTupleFields, clearUElts_id items hits]
      | node n2 f2 => simp [clearUTupleFields.eq_def]
      | vstr s => simp [clearUTupleFields.eq_def]
      | vint n => simp [clearUTupleFields.eq_def]
      | vnone => simp [clearUTupleFields.eq_def]
    · rw [clearUTupleFields.eq_def]
      simp [hf, clearUTupleFields_id rest h.2]
termination_by sizeOf fs
decreasing_by
  all_goals simp_wf
  all_goals try simp [*]
  all_goals omega

theorem clearUElts_id (items : List PyVal)
    (h : hasUKindItems items = false) : clearUElts items = items := by
  match items, h with
  | [], _ => simp [clearUElts]
  | .node n fs :: rest, h =>
    rw [hasUKindItems] at h
    simp only [Bool.or_eq_false_iff] at h
    simp [clearUElts, clearUElts_id rest h.2, clearU_id (PyVal.node n fs) h.1]
  | .vlist its :: rest, h =>
    rw [hasUKindItems] at h
    simp only [Bool.or_eq_false_iff] at h
    simp [clearUElts, clearUElts_id rest h.2]
  | .vstr s :: rest, h =>
    rw [hasUKindItems] at h
    simp only [Bool.or_eq_false_iff] at h
    simp [clearUElts, clearUElts_id rest h.2]
  | .vint n :: rest, h =>
    rw [hasUKindItems] at h
    simp only [Bool.or_eq_false_iff] at h
    simp [clearUElts, clearUElts_id rest h.2]
  | .vnone :: rest, h =>
    rw [hasUKindItems] at h
    simp only [Bool.or_eq_false_iff] at h
    simp [clearUElts, clearUElts_id rest h.2]
termination_by sizeOf items
decreasing_by
  all_goals simp_wf
  all_goals omega

end

/-- The docstring constant with the legacy `u` kind marker. -/
def exampleUConst : PyVal :=
  .node "Constant" [("kind", .vstr "u"), ("value", .vstr "doc")]

/-- A module whose docstring constant carries the legacy `u` kind marker. -/
def exampleU : PyVal :=
  .node "Module" [("body", .vlist [.node "Expr" [("value", exampleUConst)]])]

/-- `exampleU` after the traversal: the `kind` marker cleared to `None`. -/
def exampleUClearedConst : PyVal :=
  .node "Constant" [("kind", .vnone), ("value", .vstr "doc")]

def exampleUCleared : PyVal :=
  .node "Module"
    [("body", .vlist [.node "Expr" [("value", exampleUClearedConst)]])]

theorem clearU_exampleU : clearU exampleU = exampleUCleared := by
  simp [exampleU, exampleUConst, exampleUCleared, exampleUClearedConst,
    clearU, clearUFields, clearUItems, isStrU, setKindNone, dLookup]

/-- C9: `stringify_ast` is not free of side effects on its input: the
traversal's net effect on the tree is exactly `clearU` — every string
`Constant` with `kind == "u"` it reaches has its `kind` set to `None` in
place, and all other fields of all nodes are unchanged (a tree without a
`u`-kind marker comes back identical); consuming the sequence for a tree
containing a `u`-kind string constant permanently mutates the caller's
AST. -/
theorem C9_stringify_ast_mutation :
    (∀ (v : PyVal) (stack : List PyVal), (stringifyVal v stack).2 = clearU v) ∧
    (∀ (v : PyVal) (stack : List PyVal), hasUKind v = false →
        (stringifyVal v stack).2 = v) ∧
    (stringify_ast exampleU).2 = exampleUCleared ∧
    (stringify_ast exampleU).2 ≠ exampleU := by
  refine ⟨fun v stack => stringifyVal_snd v stack, ?_, ?_, ?_⟩
  · intro v stack h
    rw [stringifyVal_snd, clearU_id v h]
  · show (stringifyVal exampleU []).2 = exampleUCleared
    rw [stringifyVal_snd, clearU_exampleU]
  · show (stringifyVal exampleU []).2 ≠ exampleU
    rw [stringifyVal_snd, clearU_exampleU]
    simp [exampleUCleared, exampleU, exampleUClearedConst, exampleUConst]

/-- C9 witness: the theorem applied at a `u`-free expression node (returned
unchanged) together with the closed mutation fact. -/
theorem C9_witness :
    (stringifyVal (PyVal.node "Expr" [("value", PyVal.vstr "a")]) []).2 =
      PyVal.node "Expr" [("value", PyVal.vstr "a")] ∧
    (stringify_ast exampleU).2 ≠ exampleU :=
  ⟨C9_stringify_ast_mutation.2.1 (PyVal.node "Expr" [("value", PyVal.vstr "a")])
      []
      (by simp [hasUKind, hasUKindFields, isStrU, dLookup]),
   C9_stringify_ast_mutation.2.2.2⟩

/-! ## Docstring emission (for C8) -/

/-- A `Constant` AST node with a `kind` and a string `value` (fields listed
in the `sorted(node._fields)` order the emission loop uses). -/
def mkConstant (kind : PyVal) (v : String) : PyVal :=
  .node "Constant" [("kind", kind), ("value", .vstr v)]

/-- `ast.Constant.kind` is `None` or a string; the C8 statements quantify
over those leaf shapes. -/
def kindIsLeaf : PyVal → Bool
  | .vstr _ => true
  | .vint _ => true
  | .vnone => true
  | _ => false

/-- The `kind` value after the entry mutation of `_stringify_ast`. -/
def mutKind (kind : PyVal) : PyVal :=
  match kind with
  | .vstr k => if k = "u" then PyVal.vnone else .vstr k
  | w => w

theorem pyEscapeChar_spec (c : Char) :
    (∃ m, pyEscapeChar c = ['\\', m]) ∨ (pyEscapeChar c = [c] ∧ c ≠ '\\') := by
  unfold pyEscapeChar
  split_ifs with h1 h2 h3 h4 h5
  · exact Or.inl ⟨'\\', rfl⟩
  · exact Or.inl ⟨squote, rfl⟩
  · exact Or.inl ⟨'n', rfl⟩
  · exact Or.inl ⟨'r', rfl⟩
  · exact Or.inl ⟨'t', rfl⟩
  · exact Or.inr ⟨rfl, h1⟩

theorem pyEscapeChar_inj_esc {c1 c2 m : Char}
    (h1 : pyEscapeChar c1 = ['\\', m]) (h2 : pyEscapeChar c2 = ['\\', m]) :
    c1 = c2 := by
  unfold pyEscapeChar at h1 h2
  split_ifs at h1 h2 <;> simp_all [squote] <;> subst_vars <;> simp_all

theorem pyEscape_inj : ∀ (l1 l2 : List Char),
    pyEscape l1 = pyEscape l2 → l1 = l2 := by
  intro l1
  induction l1 with
  | nil =>
    intro l2 h
    cases l2 with
    | nil => rfl
    | cons c t =>
      rw [pyEscape, pyEscape] at h
      rcases pyEscapeChar_spec c with ⟨m, he⟩ | ⟨he, _⟩ <;>
        rw [he] at h <;> simp at h
  | cons c1 t1 ih =>
    intro l2 h
    cases l2 with
    | nil =>
      rw [pyEscape, pyEscape] at h
      rcases pyEscapeChar_spec c1 with ⟨m, he⟩ | ⟨he, _⟩ <;>
        rw [he] at h <;> simp at h
    | cons c2 t2 =>
      rw [pyEscape, pyEscape] at h
      rcases pyEscapeChar_spec c1 with ⟨m1, he1⟩ | ⟨he1, hne1⟩ <;>
        rcases pyEscapeChar_spec c2 with ⟨m2, he2⟩ | ⟨he2, hne2⟩
      · rw [he1, he2] at h
        simp only [List.cons_append, List.cons.injEq] at h
        obtain ⟨-, hm, ht⟩ := h
        subst hm
        rw [ih t2 ht, pyEscapeChar_inj_esc he1 he2]
      · rw [he1, he2] at h
        simp only [List.cons_append, List.cons.injEq] at h
        exact absurd h.1.symm hne2
      · rw [he1, he2] at h
        simp only [List.cons_append, List.cons.injEq] at h
        exact absurd h.1 hne1
      · rw [he1, he2] at h
        simp only [List.cons_append, List.cons.injEq] at h
        rw [h.1, ih t2 h.2]

theorem pyReprStr_inj {a b : String} (h : pyReprStr a = pyReprStr b) :
    a = b := by
  unfold pyReprStr at h
  have hd : squote :: pyEscape a.data ++ [squote] =
      squote :: pyEscape b.data ++ [squote] := congrArg String.data h
  simp only [List.cons_append, List.cons.injEq] at hd
  have := List.append_cancel_right hd.2
  have hdata := pyEscape_inj _ _ this
  cases a
  cases b
  simp only at hdata
  rw [hdata]

theorem stringify_constant_emit (kind : PyVal) (hk : kindIsLeaf kind = true)
    (v : String) (stack : List PyVal) (h2 : 2 ≤ stack.length)
    (hex : lastIsExpr stack = true) :
    (stringifyVal (mkConstant kind v) stack).1 =
      [pyIndent stack.length ++ "Constant" ++ "(",
       pyIndent (stack.length + 1) ++ "kind" ++ "=",
       pyIndent (stack.length + 1) ++ pyReprVal (mutKind kind) ++ ",  # " ++
         pyClassName (mutKind kind),
       pyIndent (stack.length + 1) ++ "value" ++ "=",
       pyIndent (stack.length + 1) ++ pyReprStr (pyNormalize "\n" v) ++
         ",  # " ++ "str",
       pyIndent stack.length ++ ")  # /" ++ "Constant"] := by
  cases kind with
  | vstr k =>
    by_cases hu : k = "u"
    · subst hu
      simp [stringifyVal, stringifyFields, mkConstant, isStrU, dLookup,
        setKindNone, valueLine, isDocstringPos, hex, h2, mutKind, pyReprVal,
        pyClassName, isVstr]
    · simp [stringifyVal, stringifyFields, mkConstant, isStrU, dLookup,
        setKindNone, valueLine, isDocstringPos, hex, h2, hu, mutKind,
        pyReprVal, pyClassName, isVstr]
  | vint n =>
    simp [stringifyVal, stringifyFields, mkConstant, isStrU, dLookup,
      setKindNone, valueLine, isDocstringPos, hex, h2, mutKind, pyReprVal,
      pyClassName, isVstr]
  | vnone =>
    simp [stringifyVal, stringifyFields, mkConstant, isStrU, dLookup,
      setKindNone, valueLine, isDocstringPos, hex, h2, mutKind, pyReprVal,
      pyClassName, isVstr]
  | vlist its => simp [kindIsLeaf] at hk
  | node n f => simp [kindIsLeaf] at hk

theorem pyReprStr_data_inj {a b : String}
    (h : (pyReprStr a).data = (pyReprStr b).data) : a = b := by
  have h2 : squote :: (pyEscape a.data ++ [squote]) =
      squote :: (pyEscape b.data ++ [squote]) := h
  injection h2 with hq ht
  have h3 := List.append_cancel_right ht
  have hdata := pyEscape_inj _ _ h3
  cases a
  cases b
  simp only at hdata
  rw [hdata]

/-- C8: a string constant in docstring position (`Constant` node whose parent
on the ancestor stack is an `Expr`, at nesting depth at least 2) is emitted
through `_normalize`: per-line leading/trailing whitespace is stripped, the
lines rejoined, and outer blank space stripped.  Hence two docstrings whose
lines agree up to per-line surrounding whitespace produce identical canonical
sequences, while two docstrings with different normalized content produce
different sequences. -/
theorem C8_docstring_normalization :
    (∀ (v1 v2 : String) (kind : PyVal) (stack : List PyVal),
        kindIsLeaf kind = true → 2 ≤ stack.length → lastIsExpr stack = true →
        (pySplitlines v1).map pyStrip = (pySplitlines v2).map pyStrip →
        (stringifyVal (mkConstant kind v1) stack).1 =
          (stringifyVal (mkConstant kind v2) stack).1) ∧
    (∀ (v1 v2 : String) (kind : PyVal) (stack : List PyVal),
        kindIsLeaf kind = true → 2 ≤ stack.length → lastIsExpr stack = true →
        pyNormalize "\n" v1 ≠ pyNormalize "\n" v2 →
        (stringifyVal (mkConstant kind v1) stack).1 ≠
          (stringifyVal (mkConstant kind v2) stack).1) := by
  constructor
  · intro v1 v2 kind stack hk h2 hex hlines
    have hn : pyNormalize "\n" v1 = pyNormalize "\n" v2 := by
      unfold pyNormalize
      rw [hlines]
    rw [stringify_constant_emit kind hk v1 stack h2 hex,
      stringify_constant_emit kind hk v2 stack h2 hex, hn]
  · intro v1 v2 kind stack hk h2 hex hneq heq
    rw [stringify_constant_emit kind hk v1 stack h2 hex,
      stringify_constant_emit kind hk v2 stack h2 hex] at heq
    simp only [List.cons.injEq, and_true, true_and] at heq
    apply hneq
    have hdata := congrArg String.data heq
    simp only [String.data_append, List.append_assoc] at hdata
    have h3 := List.append_cancel_left hdata
    have h4 := List.append_cancel_right h3
    exact pyReprStr_data_inj h4

/-- The ancestor stack of a module-level docstring: the `Module` node, then
the `Expr` statement. -/
def stackC8 : List PyVal := [.node "Module" [], .node "Expr" []]

/-- C8 witness: the theorem applied at a concrete reindented docstring pair
(equal sequences) and at a concrete pair with different words (different
sequences). -/
theorem C8_witness :
    (stringifyVal (mkConstant PyVal.vnone "  doc\n    more") stackC8).1 =
      (stringifyVal (mkConstant PyVal.vnone "doc\nmore") stackC8).1 ∧
    (stringifyVal (mkConstant PyVal.vnone "doc") stackC8).1 ≠
      (stringifyVal (mkConstant PyVal.vnone "other") stackC8).1 :=
  ⟨C8_docstring_normalization.1 "  doc\n    more" "doc\nmore" PyVal.vnone
      stackC8 (by decide) (by decide) (by decide) (by decide),
   C8_docstring_normalization.2 "doc" "other" PyVal.vnone stackC8
      (by decide) (by decide) (by decide) (by decide)⟩
